import Mathlib

/-!
# ChoirOS supervisor core: a shallow embedding with proofs

This file embeds the core of the ChoirOS supervisor in Lean 4 and proves
properties of it.  Modules covered: `supervisor/event_contract.py`
(event-type normalization), `supervisor/mood_engine.py` (mood transitions),
`supervisor/verifier_plan.py` (deterministic verifier plan selection),
`supervisor/db.py` (event log, touched paths, AHDB projection),
`supervisor/run_orchestrator.py` (the run state machine),
`supervisor/sandbox_runner.py` and `supervisor/verifier_runner.py`
(command execution and attestations), and `supervisor/agent/tools.py`
(`edit_file`).

Python strings are modelled as lists of Unicode code points (`PyStr`),
with ASCII case mapping (event types, moods, paths and verifier ids in
this code base are ASCII).  SHA-256 is implemented concretely over the
UTF-8 encoding.  External effects (subprocesses, git, the LLM) enter the
models as explicit parameters describing their outcomes, exactly at the
points where the Python code calls out.
-/

/-! ## Python string model: code points, strip, case, sorting -/

/-- A Python `str`, modelled as its list of Unicode code points. -/
abbrev PyStr := List Nat

/-- Code points of a Lean string literal, to write `PyStr` constants. -/
def strN (s : String) : PyStr := s.data.map Char.toNat

/-- Whitespace test matching Python `str.strip()` on ASCII whitespace. -/
def isWsChar (c : Nat) : Bool :=
  c = 32 || c = 9 || c = 10 || c = 13 || c = 11 || c = 12

/-- ASCII lower-casing of one code point (Python `str.lower`). -/
def lowerChar (c : Nat) : Nat := if 65 ≤ c ∧ c ≤ 90 then c + 32 else c

/-- ASCII upper-casing of one code point (Python `str.upper`). -/
def upperChar (c : Nat) : Nat := if 97 ≤ c ∧ c ≤ 122 then c - 32 else c

/-- Remove trailing whitespace (the right half of Python `str.strip`). -/
def stripEnd (l : PyStr) : PyStr := (l.reverse.dropWhile isWsChar).reverse

/-- Python `str.strip()`: drop leading and trailing whitespace. -/
def pyStrip (l : PyStr) : PyStr := stripEnd (l.dropWhile isWsChar)

/-- Python `sorted(...)` on strings: sort by code-point order. -/
def pySorted (l : List PyStr) : List PyStr := List.insertionSort (· ≤ ·) l

/-- Python `sorted(set(...))` on strings: deduplicate, then sort. -/
def pySortedSet (l : List PyStr) : List PyStr := List.insertionSort (· ≤ ·) l.dedup

/-- String-keyed association-list lookup (Python `dict` access). -/
def lookupL {A : Type} (u : PyStr) : List (PyStr × A) → Option A
  | [] => none
  | (k, v) :: rest => if u = k then some v else lookupL u rest

/-! ## `supervisor/mood_engine.py` -/

namespace MoodEngine

def MOOD_CALM : String := "CALM"

def MOOD_CURIOUS : String := "CURIOUS"

def MOOD_SKEPTICAL : String := "SKEPTICAL"

def MOOD_PARANOID : String := "PARANOID"

def MOOD_BOLD : String := "BOLD"

def MOOD_PETTY : String := "PETTY"

def MOOD_CONTRITE : String := "CONTRITE"

def MOOD_DEFERENTIAL : String := "DEFERENTIAL"

/-- The `MoodInputs` dataclass with its Python default values. -/
structure MoodInputs where
  crash_detected : Bool := false
  has_demo : Bool := true
  conjectures_present : Bool := true
  repeated_verifier_failures : Bool := false
  about_to_cross_privilege_boundary : Bool := false
  preference_missing : Bool := false
  ambiguity_blocking : Bool := false
  user_idk : Bool := false
  verifiers_regress : Bool := false
  hyperthesis_high : Bool := false
  mitigations_installed : Bool := false
  verified_and_bounded : Bool := false
  suspected_reward_hack : Bool := false
  state_consistent : Bool := true
  previous_mood : Option String := none
deriving DecidableEq

/-- `select_initial_mood` from `mood_engine.py`. -/
def select_initial_mood (inputs : MoodInputs) : String :=
  if inputs.crash_detected then MOOD_CONTRITE
  else if !inputs.has_demo || !inputs.conjectures_present then MOOD_CURIOUS
  else if inputs.repeated_verifier_failures then MOOD_SKEPTICAL
  else if inputs.about_to_cross_privilege_boundary then
    (if inputs.preference_missing then MOOD_DEFERENTIAL else MOOD_PARANOID)
  else MOOD_CALM

/-- `transition_mood` from `mood_engine.py`: pre-emptions first, then
per-state rules, otherwise the current mood is unchanged. -/
def transition_mood (current : String) (inputs : MoodInputs) : String :=
  if inputs.crash_detected then MOOD_CONTRITE
  else if inputs.suspected_reward_hack then MOOD_PETTY
  else if inputs.preference_missing then MOOD_DEFERENTIAL
  else if current = MOOD_CALM then
    (if inputs.ambiguity_blocking || inputs.user_idk then MOOD_CURIOUS
     else if inputs.verifiers_regress then MOOD_SKEPTICAL
     else current)
  else if current = MOOD_SKEPTICAL then
    (if inputs.hyperthesis_high then MOOD_PARANOID
     else if inputs.verified_and_bounded then MOOD_CALM
     else current)
  else if current = MOOD_PARANOID then
    (if inputs.mitigations_installed then MOOD_BOLD else current)
  else if current = MOOD_CONTRITE then
    (if inputs.state_consistent then (inputs.previous_mood.getD MOOD_CALM)
     else MOOD_CONTRITE)
  else current

end MoodEngine

/-! ## `supervisor/event_contract.py` -/

namespace EventContract

/-- `_LEGACY_EVENT_TYPE_MAP` from `event_contract.py`. -/
def legacyEventTypeMap : List (PyStr × PyStr) :=
  [ (strN "FILE_WRITE", strN "file.write")
  , (strN "FILE_DELETE", strN "file.delete")
  , (strN "FILE_MOVE", strN "file.move")
  , (strN "CONVERSATION_MESSAGE", strN "message")
  , (strN "TOOL_CALL", strN "tool.call")
  , (strN "TOOL_RESULT", strN "tool.result")
  , (strN "WINDOW_OPEN", strN "window.open")
  , (strN "WINDOW_CLOSE", strN "window.close")
  , (strN "CHECKPOINT", strN "checkpoint")
  , (strN "UNDO", strN "undo") ]

/-- One code point of `_normalize_segments`: lower-case, then turn both
`/` (47) and `_` (95) into `.` (46). -/
def segChar (c : Nat) : Nat :=
  let d := lowerChar c
  if d = 47 ∨ d = 95 then 46 else d

/-- `_normalize_segments` from `event_contract.py`:
`value.strip().lower().replace("/", ".").replace("_", ".")`. -/
def normalizeSegments (l : PyStr) : PyStr := (pyStrip l).map segChar

/-- Python `raw.split(sep, 1)[1]`: everything after the first `sep`. -/
def afterFirst (sep : Nat) : PyStr → PyStr
  | [] => []
  | c :: cs => if c = sep then cs else afterFirst sep cs

/-- `normalize_event_type` from `event_contract.py`. -/
def normalize_event_type (event_type : PyStr) : PyStr :=
  let raw := pyStrip event_type
  if raw = [] then raw
  else
    let upper := raw.map upperChar
    (lookupL upper legacyEventTypeMap).getD
      (if (strN "RECEIPT/").isPrefixOf upper then
        strN "receipt." ++ normalizeSegments (afterFirst 47 raw)
      else if (strN "_RECEIPT").isSuffixOf upper ∧ upper ≠ strN "RECEIPT" then
        strN "receipt." ++ normalizeSegments (raw.take (raw.length - 8))
      else
        normalizeSegments raw)

end EventContract

/-! ## SHA-256 (Python `hashlib.sha256(...).hexdigest()`), over UTF-8 bytes -/

namespace SHA256

/-- UTF-8 encoding of one code point (Python `str.encode()`). -/
def utf8Bytes (c : Nat) : List Nat :=
  if c < 128 then [c]
  else if c < 2048 then [192 + c / 64, 128 + c % 64]
  else if c < 65536 then [224 + c / 4096, 128 + c / 64 % 64, 128 + c % 64]
  else [240 + c / 262144, 128 + c / 4096 % 64, 128 + c / 64 % 64, 128 + c % 64]

/-- UTF-8 encoding of a string. -/
def utf8Str (s : PyStr) : List Nat := s.flatMap utf8Bytes

def M32 : Nat := 4294967296

def rotr (n x : Nat) : Nat := x / 2 ^ n + x % 2 ^ n * 2 ^ (32 - n)

def shr (n x : Nat) : Nat := x / 2 ^ n

def ch (x y z : Nat) : Nat := (x &&& y) ^^^ ((4294967295 - x % M32) &&& z)

def maj (x y z : Nat) : Nat := (x &&& y) ^^^ (x &&& z) ^^^ (y &&& z)

def bsig0 (x : Nat) : Nat := rotr 2 x ^^^ rotr 13 x ^^^ rotr 22 x

def bsig1 (x : Nat) : Nat := rotr 6 x ^^^ rotr 11 x ^^^ rotr 25 x

def ssig0 (x : Nat) : Nat := rotr 7 x ^^^ rotr 18 x ^^^ shr 3 x

def ssig1 (x : Nat) : Nat := rotr 17 x ^^^ rotr 19 x ^^^ shr 10 x

def K : List Nat :=
  [ 1116352408, 1899447441, 3049323471, 3921009573, 961987163, 1508970993,
    2453635748, 2870763221, 3624381080, 310598401, 607225278, 1426881987,
    1925078388, 2162078206, 2614888103, 3248222580, 3835390401, 4022224774,
    264347078, 604807628, 770255983, 1249150122, 1555081692, 1996064986,
    2554220882, 2821834349, 2952996808, 3210313671, 3336571891, 3584528711,
    113926993, 338241895, 666307205, 773529912, 1294757372, 1396182291,
    1695183700, 1986661051, 2177026350, 2456956037, 2730485921, 2820302411,
    3259730800, 3345764771, 3516065817, 3600352804, 4094571909, 275423344,
    430227734, 506948616, 659060556, 883997877, 958139571, 1322822218,
    1537002063, 1747873779, 1955562222, 2024104815, 2227730452, 2361852424,
    2428436474, 2756734187, 3204031479, 3329325298 ]

def H0 : List Nat :=
  [ 1779033703, 3144134277, 1013904242, 2773480762, 1359893119, 2600822924,
    528734635, 1541459225 ]

/-- Big-endian byte expansion of `x` into `n` bytes. -/
def beBytes (n x : Nat) : List Nat :=
  (List.range n).map (fun i => x / 2 ^ (8 * (n - 1 - i)) % 256)

/-- SHA-256 padding: `0x80`, zeros, then the 64-bit big-endian bit length. -/
def padMessage (msg : List Nat) : List Nat :=
  msg ++ [128] ++ List.replicate ((119 - msg.length % 64) % 64) 0
    ++ beBytes 8 (msg.length * 8)

/-- Group bytes into big-endian 32-bit words. -/
def toWords : List Nat → List Nat
  | b0 :: b1 :: b2 :: b3 :: rest =>
    (((b0 * 256 + b1) * 256 + b2) * 256 + b3) :: toWords rest
  | _ => []

/-- Split a byte list into 64-byte chunks. -/
def chunks64 (l : List Nat) : List (List Nat) :=
  if h : l = [] then []
  else l.take 64 :: chunks64 (l.drop 64)
termination_by l.length
decreasing_by
  simp only [List.length_drop]
  cases l with
  | nil => exact absurd rfl h
  | cons a as =>
    simp only [List.length_cons]
    omega

/-- Extend the 16-word message schedule by one word. -/
def schedRound (w : List Nat) : List Nat :=
  let n := w.length
  let g := fun i => w.getD i 0
  w ++ [(ssig1 (g (n - 2)) + g (n - 7) + ssig0 (g (n - 15)) + g (n - 16)) % M32]

/-- The 64-word message schedule of one chunk. -/
def buildSchedule (w : List Nat) : List Nat :=
  (List.range 48).foldl (fun acc _ => schedRound acc) w

/-- One round of the SHA-256 compression function. -/
def compressStep (st : Nat × Nat × Nat × Nat × Nat × Nat × Nat × Nat)
    (kw : Nat × Nat) : Nat × Nat × Nat × Nat × Nat × Nat × Nat × Nat :=
  let (a, b, c, d, e, f, g, h) := st
  let t1 := (h + bsig1 e + ch e f g + kw.1 + kw.2) % M32
  let t2 := (bsig0 a + maj a b c) % M32
  ((t1 + t2) % M32, a, b, c, (d + t1) % M32, e, f, g)

/-- Compress one 64-byte chunk into the running hash state. -/
def compressChunk (hs : List Nat) (chunk : List Nat) : List Nat :=
  let w := buildSchedule (toWords chunk)
  let g := fun i => hs.getD i 0
  let init := (g 0, g 1, g 2, g 3, g 4, g 5, g 6, g 7)
  let fin := (K.zip w).foldl compressStep init
  let (a, b, c, d, e, f, ff, hh) := fin
  [ (g 0 + a) % M32, (g 1 + b) % M32, (g 2 + c) % M32, (g 3 + d) % M32,
    (g 4 + e) % M32, (g 5 + f) % M32, (g 6 + ff) % M32, (g 7 + hh) % M32 ]

/-- SHA-256 digest of a byte list, as 32 bytes. -/
def sha256Bytes (msg : List Nat) : List Nat :=
  ((chunks64 (padMessage msg)).foldl compressChunk H0).flatMap (beBytes 4)

/-- Lower-case hex digit of a value below 16. -/
def hexDigit (n : Nat) : Nat := if n < 10 then 48 + n else 87 + n

/-- Lower-case hex of one byte. -/
def hexByte (b : Nat) : PyStr := [hexDigit (b / 16 % 16), hexDigit (b % 16)]

/-- `hashlib.sha256(data).hexdigest()` over raw bytes. -/
def sha256Hex (msg : List Nat) : PyStr := (sha256Bytes msg).flatMap hexByte

/-- `hashlib.sha256(s.encode()).hexdigest()` over a Python string. -/
def sha256HexOfStr (s : PyStr) : PyStr := sha256Hex (utf8Str s)

end SHA256

/-! ## Canonical JSON (`json.dumps(..., sort_keys=True, separators=(",", ":"))`) -/

namespace CanonicalJson

/-- Hex digits (lower case), as used by `json.dumps` unicode escapes. -/
def hex4 (n : Nat) : PyStr :=
  [ SHA256.hexDigit (n / 4096 % 16), SHA256.hexDigit (n / 256 % 16),
    SHA256.hexDigit (n / 16 % 16), SHA256.hexDigit (n % 16) ]

/-- Escaping of one character per `json.dumps` with `ensure_ascii=True`:
printable ASCII except `"` and `\` kept, short escapes, `\uXXXX` otherwise
(surrogate pairs above the BMP). -/
def jsonEscapeChar (c : Nat) : PyStr :=
  if c = 34 then [92, 34]
  else if c = 92 then [92, 92]
  else if c = 10 then [92, 110]
  else if c = 13 then [92, 114]
  else if c = 9 then [92, 116]
  else if c = 8 then [92, 98]
  else if c = 12 then [92, 102]
  else if 32 ≤ c ∧ c ≤ 126 then [c]
  else if c < 65536 then [92, 117] ++ hex4 c
  else
    [92, 117] ++ hex4 (55296 + (c - 65536) / 1024)
      ++ [92, 117] ++ hex4 (56320 + (c - 65536) % 1024)

/-- A JSON string literal. -/
def jsonStr (s : PyStr) : PyStr := [34] ++ s.flatMap jsonEscapeChar ++ [34]

/-- A JSON array of string literals. -/
def jsonStrList (l : List PyStr) : PyStr :=
  [91] ++ List.intercalate [44] (l.map jsonStr) ++ [93]

/-- A JSON string or `null`. -/
def jsonOptStr : Option PyStr → PyStr
  | none => strN "null"
  | some s => jsonStr s

end CanonicalJson

/-! ## `supervisor/verifier_plan.py` -/

namespace VerifierPlan

/-- One entry of the verifier catalog (`config["verifiers"]`): a dict with
optional `id`, and `moods` / `scopes` lists defaulting to `[]`. -/
structure CatalogVerifier where
  id : Option PyStr
  moods : List PyStr := []
  scopes : List PyStr := []
deriving DecidableEq

/-- The loaded verifier config: `verifiers` plus `mood_defaults`. -/
structure VerifierConfig where
  verifiers : List CatalogVerifier := []
  mood_defaults : List (PyStr × List PyStr) := []
deriving DecidableEq

/-- The `VerifierPlan` dataclass. -/
structure Plan where
  plan_id : PyStr
  inputs_hash : PyStr
  verifier_ids : List PyStr
  unknown_required : List PyStr
deriving DecidableEq

/-- `_normalize_path`: `path.replace("\\", "/").lstrip("./")` (a character
set strip of leading `.` and `/`). -/
def _normalize_path (p : PyStr) : PyStr :=
  (p.map (fun c => if c = 92 then 47 else c)).dropWhile (fun c => c = 46 || c = 47)

/-- Membership in an `fnmatch` character class body, with `lo-hi` ranges. -/
def memClass : List Nat → Nat → Bool
  | lo :: 45 :: hi :: rest, c => (decide (lo ≤ c ∧ c ≤ hi)) || memClass rest c
  | a :: rest, c => (c = a) || memClass rest c
  | [], _ => false

/-- Scan for the closing `]` of a character class; returns the class body
and the remaining pattern. -/
def scanClose : List Nat → Option (List Nat × List Nat)
  | [] => none
  | 93 :: rest => some ([], rest)
  | c :: rest => (scanClose rest).map (fun br => (c :: br.1, br.2))

/-- Split a character class from the text following `[`, honouring the
`fnmatch` rules: a leading `!` negates, and a `]` immediately after `[`
or `[!` is a literal member. -/
def splitClass (l : List Nat) : Option (List Nat × List Nat) :=
  match l with
  | 33 :: 93 :: rest => (scanClose rest).map (fun br => (33 :: 93 :: br.1, br.2))
  | 33 :: rest => (scanClose rest).map (fun br => (33 :: br.1, br.2))
  | 93 :: rest => (scanClose rest).map (fun br => (93 :: br.1, br.2))
  | l => scanClose l

/-- Match a candidate character against a class body (`!` = negation). -/
def classMatch (body : List Nat) (c : Nat) : Bool :=
  match body with
  | 33 :: b => !(memClass b c)
  | b => memClass b c

/-- Glob matching per Python `fnmatch`: `*`, `?`, `[...]` classes, and an
unterminated `[` taken literally. -/
def globMatch : List Nat → List Nat → Bool
  | [], [] => true
  | [], _ :: _ => false
  | 42 :: ps, s =>
    globMatch ps s ||
      (match s with
       | [] => false
       | _ :: cs => globMatch (42 :: ps) cs)
  | 63 :: ps, s =>
    (match s with
     | [] => false
     | _ :: cs => globMatch ps cs)
  | 91 :: ps, s =>
    (match splitClass ps with
     | none =>
       (match s with
        | [] => false
        | c :: cs => (c = 91) && globMatch ps cs)
     | some br =>
       (match s with
        | [] => false
        | c :: cs => classMatch br.1 c && globMatch br.2 cs))
  | p :: ps, [] => (p = 42) && globMatch ps []
  | p :: ps, c :: cs => (p = c) && globMatch ps cs

/-- `fnmatch.fnmatch(name, pattern)` on a POSIX system. -/
def fnmatch (name pat : PyStr) : Bool := globMatch pat name

/-- `_matches_scope` from `verifier_plan.py`: a scope ending in `/` is a
path prefix test; otherwise an `fnmatch` glob. -/
def _matches_scope (touched : List PyStr) (scopes : List PyStr) : Bool :=
  let normalized := touched.map _normalize_path
  scopes.any fun scope =>
    let scope_norm := _normalize_path scope
    if scope_norm.getLast? = some 47 then
      normalized.any fun path => scope_norm.isPrefixOf path
    else
      normalized.any fun path => fnmatch path scope_norm

/-- The ids present in the catalog (`verifier_index` keys): every entry
with a non-empty `id`. -/
def knownIds (verifiers : List CatalogVerifier) : List PyStr :=
  verifiers.filterMap (·.id)

/-- One iteration of the scope-based selection loop: skip entries without
an id, skip entries whose declared `moods` exclude the current mood key
(only when both are non-empty), otherwise include the id if any touched
path matches one of the entry scopes. -/
def scopeEntry (touched_paths : List PyStr) (mood_key : PyStr)
    (v : CatalogVerifier) : Option PyStr :=
  match v.id with
  | none => none
  | some vid =>
    let moods := v.moods.map (fun m => m.map upperChar)
    if moods ≠ [] ∧ mood_key ≠ [] ∧ mood_key ∉ moods then none
    else if _matches_scope touched_paths v.scopes then some vid
    else none

/-- The selection loop body of `select_verifier_plan`, in iteration order:
known required ids, then mood defaults, then scope-matching catalog
entries. -/
def selectedList (cfg : VerifierConfig) (touched_paths : List PyStr)
    (mood_key : PyStr) (required : List PyStr) : List PyStr :=
  required.filter (fun r => decide (r ∈ knownIds cfg.verifiers))
    ++ ((lookupL mood_key cfg.mood_defaults).getD []).filter
        (fun i => decide (i ∈ knownIds cfg.verifiers))
    ++ cfg.verifiers.filterMap (scopeEntry touched_paths mood_key)

/-- `_hash_inputs`: canonical JSON of the inputs dict (keys sorted
alphabetically: mood, required_verifiers, risk_tier, touched_paths,
unknown_required, verifier_ids), then SHA-256. -/
def canonicalInputsJson (touched : List PyStr) (mood : Option PyStr)
    (required : List PyStr) (risk_tier : Option PyStr)
    (verifier_ids : List PyStr) (unknown_required : List PyStr) : PyStr :=
  strN "\x7b\"mood\":" ++ CanonicalJson.jsonOptStr mood
    ++ strN ",\"required_verifiers\":" ++ CanonicalJson.jsonStrList required
    ++ strN ",\"risk_tier\":" ++ CanonicalJson.jsonOptStr risk_tier
    ++ strN ",\"touched_paths\":" ++ CanonicalJson.jsonStrList touched
    ++ strN ",\"unknown_required\":" ++ CanonicalJson.jsonStrList unknown_required
    ++ strN ",\"verifier_ids\":" ++ CanonicalJson.jsonStrList verifier_ids
    ++ strN "\x7d"

/-- `select_verifier_plan` from `verifier_plan.py`; the loaded config is an
explicit argument, `required_verifiers or []` is the plain list, and
`mood` is `None` or a string. -/
def select_verifier_plan (cfg : VerifierConfig) (touched_paths : List PyStr)
    (mood : Option PyStr) (required_verifiers : List PyStr)
    (risk_tier : Option PyStr) : Plan :=
  let mood_key := (mood.getD []).map upperChar
  let required := required_verifiers
  let unknown_required := required.filter
    (fun r => decide (r ∉ knownIds cfg.verifiers))
  let verifier_ids := pySortedSet (selectedList cfg touched_paths mood_key required)
  let inputs_touched := pySortedSet (touched_paths.map _normalize_path)
  let inputs_mood : Option PyStr := if mood_key = [] then none else some mood_key
  let inputs_hash := SHA256.sha256HexOfStr
    (canonicalInputsJson inputs_touched inputs_mood (pySorted required) risk_tier
      verifier_ids (pySorted unknown_required))
  let plan_id := SHA256.sha256HexOfStr (strN "plan:" ++ inputs_hash)
  { plan_id := plan_id
  , inputs_hash := inputs_hash
  , verifier_ids := verifier_ids
  , unknown_required := pySorted unknown_required }

/-- The catalog of spec scenario 1: one verifier `V1` with scope
`src/*.txt` and moods `[CALM]`, and no mood defaults. -/
def sampleConfig : VerifierConfig :=
  { verifiers :=
      [{ id := some (strN "V1")
       , moods := [strN "CALM"]
       , scopes := [strN "src/*.txt"] }]
  , mood_defaults := [] }

end VerifierPlan

/-! ## `supervisor/db.py`: event log, touched paths, AHDB projection -/

namespace Db

/-- JSON-like payload values, with the structure the db code inspects: a
value is either a JSON object (`dict`, whose member values are opaque and
carried by their serialized text, as the code only ever re-serializes
them) or any other JSON value, also carried opaquely by its serialized
text (`prim`).  This is exactly the granularity of the
`isinstance(..., dict)` checks of `_extract_ahdb_delta`. -/
inductive PVal where
  | prim (s : PyStr)
  | dict (entries : List (PyStr × PyStr))
deriving DecidableEq

/-- A payload is a JSON object: key/value pairs with string keys. -/
abbrev Payload := List (PyStr × PVal)

/-- One row of the `events` table: monotone `seq`, normalized `type`,
opaque payload.  (Timestamps and `nats_seq` carry no logic.) -/
structure Event where
  seq : Nat
  type : PyStr
  payload : Payload
deriving DecidableEq

/-- `get_latest_seq`: `MAX(seq)`, with `0` for an empty log. -/
def get_latest_seq (log : List Event) : Nat :=
  log.foldl (fun m e => max m e.seq) 0

/-- `EventStore.append`: normalize the type, assign the next sequence
number (`AUTOINCREMENT`), insert at the end of the log. -/
def append_event (log : List Event) (event_type : PyStr) (payload : Payload) :
    List Event :=
  log ++ [{ seq := get_latest_seq log + 1
          , type := EventContract.normalize_event_type event_type
          , payload := payload }]

/-- Fold `append_event` over a batch of `(type, payload)` pairs. -/
def append_events (log : List Event) (items : List (PyStr × Payload)) :
    List Event :=
  items.foldl (fun l tp => append_event l tp.1 tp.2) log

/-- The string value at a payload key, if any (the code adds
`payload["path"]` etc. to a set of path strings). -/
def strVal : Option PVal → List PyStr
  | some (.prim s) => [s]
  | _ => []

/-- The path strings contributed by one payload: its `path`, `from` and
`to` values. -/
def pathVals (payload : Payload) : List PyStr :=
  strVal (lookupL (strN "path") payload)
    ++ strVal (lookupL (strN "from") payload)
    ++ strVal (lookupL (strN "to") payload)

/-- The default event types of `get_event_paths_since`. -/
def pathEventTypes : List PyStr :=
  [strN "file.write", strN "file.delete", strN "file.move"]

/-- `get_event_paths_since`: the sorted set of path payload values of
`file.write` / `file.delete` / `file.move` events with `seq > since_seq`. -/
def get_event_paths_since (log : List Event) (since_seq : Nat) : List PyStr :=
  pySortedSet
    ((log.filter (fun e =>
        decide (since_seq < e.seq) && decide (e.type ∈ pathEventTypes))).flatMap
      (fun e => pathVals e.payload))

/-- `_extract_ahdb_delta`: take the first of `delta` / `ahdb_delta` /
`ahdb` whose value is a dict; otherwise collect the top-level slot keys
(`assert`, `hypothesize`, `drive`, `believe`) that are present. -/
def _extract_ahdb_delta (payload : Payload) : Option Payload :=
  let tryKey := fun (k : PyStr) =>
    match lookupL k payload with
    | some (.dict d) => some (d.map (fun kv => (kv.1, PVal.prim kv.2)))
    | _ => none
  match tryKey (strN "delta") with
  | some d => some d
  | none =>
    match tryKey (strN "ahdb_delta") with
    | some d => some d
    | none =>
      match tryKey (strN "ahdb") with
      | some d => some d
      | none =>
        let slots := [strN "assert", strN "hypothesize", strN "drive", strN "believe"]
        if slots.any (fun k => (lookupL k payload).isSome) then
          some (slots.filterMap (fun k => (lookupL k payload).map (fun v => (k, v))))
        else none

/-- The `ahdb_state` table: a key/value mapping. -/
abbrev AhdbState := List (PyStr × PVal)

/-- `INSERT OR REPLACE` into `ahdb_state` keyed by `key`. -/
def setKey : AhdbState → PyStr → PVal → AhdbState
  | [], k, v => [(k, v)]
  | (k', v') :: rest, k, v =>
    if k' = k then (k, v) :: rest else (k', v') :: setKey rest k v

/-- `_apply_ahdb_delta`: write every slot of the delta into `ahdb_state`,
in iteration order (last writer wins per slot). -/
def _apply_ahdb_delta (st : AhdbState) (delta : Payload) : AhdbState :=
  delta.foldl (fun s kv => setKey s kv.1 kv.2) st

/-- The `ahdb_state` part of `_materialize_projection` for one event. -/
def materializeAhdb (st : AhdbState) (e : Event) : AhdbState :=
  if e.type = strN "receipt.ahdb.delta" then
    match _extract_ahdb_delta e.payload with
    | some d => _apply_ahdb_delta st d
    | none => st
  else st

/-- `rebuild_projection_from_events`, restricted to `ahdb_state`: purge,
then replay every event in `seq` order through the materializer. -/
def rebuildAhdb (log : List Event) : AhdbState := log.foldl materializeAhdb []

/-- The event store slice relevant to the AHDB projection: the log plus
the incrementally-maintained `ahdb_state`. -/
structure AhdbStore where
  log : List Event := []
  ahdb : AhdbState := []
deriving DecidableEq

/-- Appending one event updates the log and materializes the projection
synchronously (as `_apply_event` does; `log_ahdb_delta` wraps the delta as
`{"delta": d}` and applies the same per-slot update). -/
def ahdbAppend (st : AhdbStore) (event_type : PyStr) (payload : Payload) :
    AhdbStore :=
  let log' := append_event st.log event_type payload
  { log := log'
  , ahdb := (log'.getLast?.elim st.ahdb (fun e => materializeAhdb st.ahdb e)) }

/-- Fold `ahdbAppend` over a batch. -/
def ahdbAppendAll (st : AhdbStore) (items : List (PyStr × Payload)) : AhdbStore :=
  items.foldl (fun s tp => ahdbAppend s tp.1 tp.2) st

/-- The last value a delta writes to slot `k` (later items of the dict
overwrite earlier ones). -/
def lookupLast (k : PyStr) (d : Payload) : Option PVal := lookupL k d.reverse

/-- The deltas carried by a list of deltas, folded per-slot: the value of
`k` is the last delta containing `k`, if any. -/
def lastVal (k : PyStr) (ds : List Payload) : Option PVal :=
  ds.foldl (fun acc d => match lookupLast k d with
    | some v => some v
    | none => acc) none

/-- Applying a list of deltas in order to an empty `ahdb_state`. -/
def ahdbStateOf (ds : List Payload) : AhdbState := ds.foldl _apply_ahdb_delta []

end Db

/-! ## `supervisor/agent/tools.py`: `edit_file` -/

namespace Tools

/-- Python `str.replace(old, new)`: replace all non-overlapping
occurrences left to right; an empty `old` inserts `new` before every
character and at the end. -/
def pyReplace (s old new : PyStr) : PyStr :=
  if old = [] then new ++ s.flatMap (fun c => c :: new)
  else if h : old.isPrefixOf s then new ++ pyReplace (s.drop old.length) old new
  else
    match s with
    | [] => []
    | c :: cs => c :: pyReplace cs old new
termination_by s.length
decreasing_by
  · have h1 := (List.isPrefixOf_iff_prefix.mp h).length_le
    have h2 : 0 < old.length := by
      cases old with
      | nil => simp_all
      | cons a as => simp
    simp only [List.length_drop]
    omega
  · simp

/-- Python `str.count(old)`: the number of non-overlapping occurrences,
scanned left to right (`len + 1` for an empty pattern). -/
def pyCount (s old : PyStr) : Nat :=
  if old = [] then s.length + 1
  else if h : old.isPrefixOf s then 1 + pyCount (s.drop old.length) old
  else
    match s with
    | [] => 0
    | _ :: cs => pyCount cs old
termination_by s.length
decreasing_by
  · have h1 := (List.isPrefixOf_iff_prefix.mp h).length_le
    have h2 : 0 < old.length := by
      cases old with
      | nil => simp_all
      | cons a as => simp
    simp only [List.length_drop]
    omega
  · simp

/-- The document-order non-overlapping occurrence decomposition of `s` by
`pat`: `s` is the interleaving of these parts with the occurrences of
`pat`.  (For an empty pattern there is an occurrence before every
character and at the end.)  This is the specification-side description of
what `str.replace` replaces. -/
def occSplit (s pat : PyStr) : List PyStr :=
  if pat = [] then [[]] ++ s.map (fun c => [c]) ++ [[]]
  else if h : pat.isPrefixOf s then [] :: occSplit (s.drop pat.length) pat
  else
    match s with
    | [] => [[]]
    | c :: cs =>
      match occSplit cs pat with
      | [] => [[c]]
      | p :: ps => (c :: p) :: ps
termination_by s.length
decreasing_by
  · have h1 := (List.isPrefixOf_iff_prefix.mp h).length_le
    have h2 : 0 < pat.length := by
      cases pat with
      | nil => simp_all
      | cons a as => simp
    simp only [List.length_drop]
    omega
  · simp

/-- `old_text[:50] + "..."` when longer than 50 characters. -/
def trunc50 (s : PyStr) : PyStr :=
  if s.length > 50 then s.take 50 ++ strN "..." else s

/-- One entry of the `changes` list returned by `edit_file`. -/
structure EditChange where
  old_text : PyStr
  new_text : Option PyStr := none
  occurrences : Option Nat := none
  status : PyStr
deriving DecidableEq

/-- One iteration of the `edit_file` loop: skip (recording `not_found`)
when `old_text` does not occur, else replace all occurrences and record
`replaced` with the occurrence count. -/
def editStep (acc : PyStr × List EditChange) (ed : PyStr × PyStr) :
    PyStr × List EditChange :=
  let content := acc.1
  let changes := acc.2
  if ¬ (ed.1 <:+: content) then
    (content, changes ++ [{ old_text := trunc50 ed.1, status := strN "not_found" }])
  else
    (pyReplace content ed.1 ed.2,
      changes ++ [{ old_text := trunc50 ed.1
                  , new_text := some (trunc50 ed.2)
                  , occurrences := some (pyCount content ed.1)
                  , status := strN "replaced" }])

/-- The full edit loop of `edit_file` over the current file content. -/
def applyEdits (content : PyStr) (edits : List (PyStr × PyStr)) :
    PyStr × List EditChange :=
  edits.foldl editStep (content, [])

/-- The result dict of `edit_file` (the dry-run and applied shapes). -/
inductive EditOutcome where
  | dryRun (changes : List EditChange) (would_modify : Bool)
  | applied (changes : List EditChange) (modified : Bool)
deriving DecidableEq

/-- `edit_file` on an existing file: returns the outcome, the resulting
file content, and whether a `file.write` event was appended.  A dry run
returns before writing; otherwise the file and the event are written only
when the content changed. -/
def edit_file (content : PyStr) (edits : List (PyStr × PyStr))
    (dry_run : Bool) : EditOutcome × PyStr × Bool :=
  let res := applyEdits content edits
  if dry_run then (.dryRun res.2 (decide (res.1 ≠ content)), content, false)
  else if res.1 ≠ content then (.applied res.2 true, res.1, true)
  else (.applied res.2 false, content, false)

end Tools

/-! ## `supervisor/sandbox_runner.py` and `supervisor/verifier_runner.py` -/

namespace VerifierRun

/-- The result dataclass of a sandbox command. -/
structure SandboxResult where
  return_code : Int
  stdout : PyStr
  stderr : PyStr
  timed_out : Bool := false
deriving DecidableEq

/-- How the subprocess behaved: completed with a return code and output,
or exceeded its timeout (`subprocess.TimeoutExpired`, with the partial
output captured so far, `None` mapped to the empty string). -/
inductive ExecOutcome where
  | completed (returncode : Int) (stdout stderr : PyStr)
  | timedOut (stdout stderr : PyStr)
deriving DecidableEq

/-- `LocalSandboxRunner.run`: surface a completed process as-is, and a
timeout as `return_code=124, timed_out=True` with `"\nTIMEOUT"` appended
to stderr. -/
def localSandboxRun : ExecOutcome → SandboxResult
  | .completed rc out err => { return_code := rc, stdout := out, stderr := err }
  | .timedOut out err =>
    { return_code := 124, stdout := out, stderr := err ++ strN "\nTIMEOUT"
    , timed_out := true }

/-- The BAML analysis record (the `confidence` float carries no logic in
the status computation and is not modelled). -/
structure BamlAnalysis where
  status : PyStr
  summary : PyStr := []
  details : List PyStr := []
  analysis_hash : PyStr := []
deriving DecidableEq

/-- The status computation of `VerifierRunner.run_async`: prefer the
analyzer verdict when it is one of `pass`/`fail`/`blocker` (lower-cased),
otherwise `pass` exactly when the return code is zero. -/
def verifierStatus (baml : Option BamlAnalysis) (return_code : Int) : PyStr :=
  match baml with
  | some b =>
    let s := b.status.map lowerChar
    if s = strN "pass" ∨ s = strN "fail" ∨ s = strN "blocker" then s
    else if return_code = 0 then strN "pass" else strN "fail"
  | none => if return_code = 0 then strN "pass" else strN "fail"

/-- The verifier result slice relevant to adjudication: id, status,
return code, and the content hash of the raw output. -/
structure VerifierResult where
  verifier_id : PyStr
  status : PyStr
  return_code : Int
  artifact_hash : PyStr
deriving DecidableEq

/-- `VerifierRunner.run_async`: execute in the sandbox, hash
`"STDOUT\n" + stdout + "\nSTDERR\n" + stderr`, and compute the status
(the analyzer outcome is an explicit parameter; `None` when unavailable). -/
def verifier_run (verifier_id : PyStr) (outcome : ExecOutcome)
    (baml : Option BamlAnalysis) : VerifierResult :=
  let result := localSandboxRun outcome
  { verifier_id := verifier_id
  , status := verifierStatus baml result.return_code
  , return_code := result.return_code
  , artifact_hash := SHA256.sha256HexOfStr
      (strN "STDOUT\n" ++ result.stdout ++ strN "\nSTDERR\n" ++ result.stderr) }

end VerifierRun

/-! ## `supervisor/run_orchestrator.py`: the run state machine -/

namespace Orchestrator

/-- Typed note bodies (only the fields the orchestrator writes; the
nested result payloads of observations are elided as their event tag). -/
inductive NoteBody where
  | statusB (status mood stage : PyStr)
  | hyperthesisB (error bound : PyStr)
  | observationB (event : PyStr)
deriving DecidableEq

/-- One row of `run_notes`. -/
structure Note where
  run_id : Nat
  note_type : PyStr
  body : NoteBody
deriving DecidableEq

/-- One row of `runs`. -/
structure RunRow where
  id : Nat
  work_item_id : PyStr
  status : PyStr
  mood : PyStr
deriving DecidableEq

/-- The store slice the orchestrator touches: run rows, notes,
verifications, commit requests, and the two `sync_state` singletons.
`get_last_good_checkpoint` / `set_last_good_checkpoint` and
`get_sync_state` / `set_sync_state` are modelled from the spec: they are
used by the orchestrator but defined outside `src` — per the spec,
last-writer-wins singleton pointers stored in `sync_state`. -/
structure Store where
  runs : List RunRow := []
  run_notes : List Note := []
  run_verifications : List (Nat × VerifierRun.VerifierResult) := []
  run_commit_requests : List Nat := []
  last_good : Option PyStr := none
  sandbox_checkpoint : Option PyStr := none
deriving DecidableEq

/-- `create_run`: insert a fresh run row. -/
def create_run (st : Store) (rid : Nat) (wid : PyStr) (mood : PyStr)
    (status : PyStr) : Store :=
  { st with runs := st.runs ++ [{ id := rid, work_item_id := wid
                                , status := status, mood := mood }] }

/-- `update_run` with a `{status}` or `{status, mood}` update dict. -/
def update_run (st : Store) (rid : Nat) (status : PyStr)
    (mood : Option PyStr) : Store :=
  { st with runs := st.runs.map (fun r =>
      if r.id = rid then { r with status := status, mood := mood.getD r.mood }
      else r) }

/-- `add_run_note`. -/
def add_run_note (st : Store) (rid : Nat) (note_type : PyStr)
    (body : NoteBody) : Store :=
  { st with run_notes := st.run_notes ++ [{ run_id := rid
                                          , note_type := note_type
                                          , body := body }] }

/-- `add_run_verification`. -/
def add_run_verification (st : Store) (rid : Nat)
    (res : VerifierRun.VerifierResult) : Store :=
  { st with run_verifications := st.run_verifications ++ [(rid, res)] }

/-- `add_commit_request` (the `note.request.verify` row; payload elided). -/
def add_commit_request (st : Store) (rid : Nat) : Store :=
  { st with run_commit_requests := st.run_commit_requests ++ [rid] }

/-- Modelled from the spec: `set_last_good_checkpoint`, a last-writer-wins
singleton in `sync_state`. -/
def set_last_good (st : Store) (sha : PyStr) : Store :=
  { st with last_good := some sha }

/-- Modelled from the spec: `set_sync_state("sandbox_checkpoint:...")`. -/
def set_sandbox_checkpoint (st : Store) (cid : PyStr) : Store :=
  { st with sandbox_checkpoint := some cid }

/-- The status of run `rid` in the store. -/
def run_status (st : Store) (rid : Nat) : Option PyStr :=
  (st.runs.find? (fun r => r.id = rid)).map (·.status)

/-- The mood of run `rid` in the store. -/
def run_mood (st : Store) (rid : Nat) : Option PyStr :=
  (st.runs.find? (fun r => r.id = rid)).map (·.mood)

/-- How the executor callable behaved: returned a truthiness value, or
raised. -/
inductive ExecOutcome where
  | ok (success : Bool)
  | raises (error : PyStr)
deriving DecidableEq

/-- The dict returned by `git_ops.checkpoint`: `success` plus the commit
sha when one is reported (the current `HEAD` in the nothing-to-commit
case, absent on failure). -/
structure CheckpointResult where
  success : Bool
  commit_sha : Option PyStr
deriving DecidableEq

/-- The external outcomes one call of `RunOrchestrator.run` observes, in
the order the code asks for them. -/
structure OrchEnv where
  run_id : Nat
  work_item_id : PyStr
  mood : PyStr := strN "CALM"
  head_sha : Option PyStr := none
  sandbox_created : Bool := true
  executor : ExecOutcome
  verifier_results : List VerifierRun.VerifierResult := []
  checkpoint_result : CheckpointResult := { success := false, commit_sha := none }
  sandbox_checkpoint_made : Option PyStr := none
  keep_sandbox : Bool := false
deriving DecidableEq

/-- The externally visible effects of one run. -/
structure Trace where
  reverts : List PyStr := []
  create_restores : List PyStr := []
  rollback_restores : List PyStr := []
  rollback_notified : List Nat := []
  destroys : Nat := 0
deriving DecidableEq

/-- The adjudication tail of the run procedure (steps after the verifier
results are known): transition to `verified`/`failed` with mood
`SKEPTICAL`, write the adjudication `note.status`; on `verified`,
checkpoint the repository (updating `last_good` only when the checkpoint
reports success with a sha), snapshot the sandbox, and emit the commit
request; on `failed`, revert to `last_good` when one exists, restore the
sandbox checkpoint when a pointer exists, and notify the rollback sink. -/
def adjudicate (env : OrchEnv) (st : Store) (tr : Trace) : Store × Trace :=
  let rid := env.run_id
  let results := env.verifier_results
  let all_passed := results.all (fun r => r.status = strN "pass")
  let final_status := if all_passed then strN "verified" else strN "failed"
  let st := update_run st rid final_status (some (strN "SKEPTICAL"))
  let st := add_run_note st rid (strN "note.status")
    (.statusB final_status (strN "SKEPTICAL") (strN "adjudicate"))
  if all_passed then
    let ck := env.checkpoint_result
    let st := match ck.commit_sha with
      | some sha => if ck.success then set_last_good st sha else st
      | none => st
    let st := add_run_note st rid (strN "note.observation")
      (.observationB (strN "checkpoint"))
    let st := if env.sandbox_created then
        match env.sandbox_checkpoint_made with
        | some cid =>
          add_run_note (set_sandbox_checkpoint st cid) rid
            (strN "note.observation") (.observationB (strN "sandbox.checkpoint"))
        | none =>
          add_run_note st rid (strN "note.observation")
            (.observationB (strN "sandbox.checkpoint"))
      else st
    (add_commit_request st rid, tr)
  else
    let last_good := st.last_good
    let tr := match last_good with
      | some sha => { tr with reverts := tr.reverts ++ [sha] }
      | none => tr
    let st := add_run_note st rid (strN "note.observation")
      (.observationB (strN "rollback"))
    let last_sc := st.sandbox_checkpoint
    let stTr := match last_sc with
      | some cid =>
        if env.sandbox_created then
          (add_run_note st rid (strN "note.observation")
            (.observationB (strN "sandbox.restore")),
           { tr with rollback_restores := tr.rollback_restores ++ [cid] })
        else (st, tr)
      | none => (st, tr)
    (stTr.1, { stTr.2 with rollback_notified := stTr.2.rollback_notified ++ [rid] })

/-- Steps 1-4 of the run procedure, before the executor is invoked:
create the run row, ensure a last-good checkpoint exists (falling back to
the current `HEAD`), write the `execute` status note, and provision the
sandbox (restoring its last checkpoint when a pointer exists, which the
trace records). -/
def preExec (env : OrchEnv) (st₀ : Store) : Store × Trace :=
  let rid := env.run_id
  let st := create_run st₀ rid env.work_item_id env.mood (strN "running")
  let st := if st.last_good.isSome then st
    else match env.head_sha with
      | some h => set_last_good st h
      | none => st
  let st := add_run_note st rid (strN "note.status")
    (.statusB (strN "running") env.mood (strN "execute"))
  let tr : Trace := {}
  if env.sandbox_created then
    let st := add_run_note st rid (strN "note.observation")
      (.observationB (strN "sandbox.create"))
    match st.sandbox_checkpoint with
    | some cid =>
      (add_run_note st rid (strN "note.observation")
        (.observationB (strN "sandbox.restore")),
       { tr with create_restores := tr.create_restores ++ [cid] })
    | none => (st, tr)
  else
    (add_run_note st rid (strN "note.observation")
      (.observationB (strN "sandbox.create")), tr)

/-- Step 5: invoke the executor; an exception is captured into a
`note.hyperthesis` and counts as failure. -/
def execPhase (env : OrchEnv) (st : Store) : Store × Bool :=
  match env.executor with
  | .ok b => (st, b)
  | .raises err =>
    (add_run_note st env.run_id (strN "note.hyperthesis")
      (.hyperthesisB err (strN "re-run with isolated executor")), false)

/-- `RunOrchestrator.run` (the adjudication-level state machine; the async
variant `run_async` differs only by computing the verifier plan from
touched paths and attaching it to payloads, which are elided here).
External outcomes (git head, sandbox creation, the executor, each
verifier result, the repository checkpoint, the sandbox snapshot) are the
fields of `env`. -/
def run (env : OrchEnv) (st₀ : Store) : Store × Trace :=
  let rid := env.run_id
  let pre := preExec env st₀
  let stSuccess := execPhase env pre.1
  let st := stSuccess.1
  let tr := pre.2
  let success := stSuccess.2
  let out :=
    if success = false then
      let st := update_run st rid (strN "failed") (some (strN "SKEPTICAL"))
      let st := add_run_note st rid (strN "note.status")
        (.statusB (strN "failed") (strN "SKEPTICAL") (strN "verify"))
      (st, tr)
    else
      let st := update_run st rid (strN "verifying") none
      let st := add_run_note st rid (strN "note.status")
        (.statusB (strN "verifying") env.mood (strN "verify"))
      let st := env.verifier_results.foldl
        (fun s r => add_run_verification s rid r) st
      adjudicate env st tr
  let destroyed := if env.sandbox_created ∧ env.keep_sandbox = false then 1 else 0
  (out.1, { out.2 with destroys := out.2.destroys + destroyed })

/-- A store with an existing last-good checkpoint and no prior runs, as
concrete witness/counterexample input. -/
def baseStore : Store := { last_good := some (strN "old") }

/-- A concrete environment whose executor raises. -/
def execRaisesEnv : OrchEnv :=
  { run_id := 1, work_item_id := strN "w"
  , executor := .raises (strN "boom") }

/-- A concrete environment whose executor succeeds, all (zero) verifiers
pass, and the repository checkpoint fails. -/
def checkpointFailsEnv : OrchEnv :=
  { run_id := 1, work_item_id := strN "w"
  , executor := .ok true
  , verifier_results := []
  , checkpoint_result := { success := false, commit_sha := none } }

/-- A concrete environment whose executor succeeds, all (zero) verifiers
pass, and the repository checkpoint succeeds with a fresh commit sha. -/
def checkpointOkEnv : OrchEnv :=
  { run_id := 1, work_item_id := strN "w"
  , executor := .ok true
  , verifier_results := []
  , checkpoint_result := { success := true, commit_sha := some (strN "new") } }

end Orchestrator

/-! ## Theorems and supporting lemmas -/

namespace EventContract

lemma head?_dropWhile_not {p : Nat → Bool} {l : PyStr} {c : Nat}
    (h : (l.dropWhile p).head? = some c) : p c = false := by
  induction l with
  | nil => simp at h
  | cons a as ih =>
    rw [List.dropWhile_cons] at h
    by_cases hpa : p a = true
    · rw [if_pos hpa] at h
      exact ih h
    · rw [if_neg hpa] at h
      simp only [List.head?_cons, Option.some.injEq] at h
      subst h
      simpa using hpa

lemma dropWhile_eq_self_of_head {p : Nat → Bool} {l : PyStr}
    (h : ∀ c, l.head? = some c → p c = false) : l.dropWhile p = l := by
  cases l with
  | nil => rfl
  | cons a as =>
    rw [List.dropWhile_cons, h a rfl]
    simp

lemma getLast?_stripEnd_not {l : PyStr} {c : Nat}
    (h : (stripEnd l).getLast? = some c) : isWsChar c = false := by
  unfold stripEnd at h
  rw [List.getLast?_reverse] at h
  exact head?_dropWhile_not h

lemma stripEnd_eq_self {l : PyStr}
    (h : ∀ c, l.getLast? = some c → isWsChar c = false) : stripEnd l = l := by
  unfold stripEnd
  rw [dropWhile_eq_self_of_head, List.reverse_reverse]
  intro c hc
  rw [List.head?_reverse] at hc
  exact h c hc

lemma stripEnd_isPre (l : PyStr) : stripEnd l <+: l := by
  obtain ⟨t, ht⟩ := List.dropWhile_suffix (l := l.reverse) isWsChar
  refine ⟨t.reverse, ?_⟩
  unfold stripEnd
  rw [← List.reverse_append, ht, List.reverse_reverse]

lemma head?_stripEnd {l : PyStr} (h : stripEnd l ≠ []) :
    (stripEnd l).head? = l.head? := by
  obtain ⟨t, ht⟩ := stripEnd_isPre l
  conv_rhs => rw [← ht]
  cases hse : stripEnd l with
  | nil => exact absurd hse h
  | cons x xs => rfl

lemma head?_pyStrip_not {l : PyStr} {c : Nat}
    (h : (pyStrip l).head? = some c) : isWsChar c = false := by
  unfold pyStrip at h
  have hne : stripEnd (l.dropWhile isWsChar) ≠ [] := by
    intro h0
    rw [h0] at h
    simp at h
  rw [head?_stripEnd hne] at h
  exact head?_dropWhile_not h

lemma getLast?_pyStrip_not {l : PyStr} {c : Nat}
    (h : (pyStrip l).getLast? = some c) : isWsChar c = false := by
  unfold pyStrip at h
  exact getLast?_stripEnd_not h

lemma pyStrip_eq_self {l : PyStr}
    (h1 : ∀ c, l.head? = some c → isWsChar c = false)
    (h2 : ∀ c, l.getLast? = some c → isWsChar c = false) : pyStrip l = l := by
  unfold pyStrip
  rw [dropWhile_eq_self_of_head h1]
  exact stripEnd_eq_self h2

lemma pyStrip_idem (l : PyStr) : pyStrip (pyStrip l) = pyStrip l :=
  pyStrip_eq_self (fun _ hc => head?_pyStrip_not hc) (fun _ hc => getLast?_pyStrip_not hc)

lemma segChar_segChar (c : Nat) : segChar (segChar c) = segChar c := by
  simp only [segChar, lowerChar]
  split_ifs <;> omega

lemma segChar_ne_47 (c : Nat) : segChar c ≠ 47 := by
  simp only [segChar, lowerChar]
  split_ifs <;> omega

lemma segChar_ne_95 (c : Nat) : segChar c ≠ 95 := by
  simp only [segChar, lowerChar]
  split_ifs <;> omega

lemma upperChar_eq_95 {c : Nat} (h : upperChar c = 95) : c = 95 := by
  simp only [upperChar] at h
  split_ifs at h <;> omega

lemma upperChar_eq_47 {c : Nat} (h : upperChar c = 47) : c = 47 := by
  simp only [upperChar] at h
  split_ifs at h <;> omega

lemma isWs_segChar_false {c : Nat} (h : isWsChar c = false) :
    isWsChar (segChar c) = false := by
  simp only [isWsChar, segChar, lowerChar] at *
  split_ifs <;> simp_all <;> omega

lemma pyStrip_normalizeSegments (s : PyStr) :
    pyStrip (normalizeSegments s) = normalizeSegments s := by
  apply pyStrip_eq_self
  · intro c hc
    rw [normalizeSegments, List.head?_map] at hc
    cases hh : (pyStrip s).head? with
    | none => rw [hh] at hc; simp at hc
    | some d =>
      rw [hh] at hc
      simp only [Option.map_some', Option.some.injEq] at hc
      rw [← hc]
      exact isWs_segChar_false (head?_pyStrip_not hh)
  · intro c hc
    rw [normalizeSegments, List.getLast?_map] at hc
    cases hh : (pyStrip s).getLast? with
    | none => rw [hh] at hc; simp at hc
    | some d =>
      rw [hh] at hc
      simp only [Option.map_some', Option.some.injEq] at hc
      rw [← hc]
      exact isWs_segChar_false (getLast?_pyStrip_not hh)

lemma lookupL_mem {A : Type} {u : PyStr} {v : A} {m : List (PyStr × A)}
    (h : lookupL u m = some v) : (u, v) ∈ m := by
  induction m with
  | nil => simp [lookupL] at h
  | cons kv rest ih =>
    obtain ⟨k, w⟩ := kv
    rw [lookupL] at h
    by_cases hk : u = k
    · rw [if_pos hk] at h
      simp only [Option.some.injEq] at h
      subst hk
      subst h
      exact List.mem_cons_self _ _
    · rw [if_neg hk] at h
      exact List.mem_cons_of_mem _ (ih h)

lemma lookupL_eq_none_of {A : Type} {u : PyStr} {m : List (PyStr × A)}
    (h : ∀ kv ∈ m, u ≠ kv.1) : lookupL u m = none := by
  induction m with
  | nil => rfl
  | cons kv rest ih =>
    rw [lookupL, if_neg (h kv (List.mem_cons_self _ _))]
    exact ih fun x hx => h x (List.mem_cons_of_mem _ hx)

lemma ne_of_head?_ne {l₁ l₂ : PyStr} (h : l₁.head? ≠ l₂.head?) : l₁ ≠ l₂ :=
  fun he => h (he ▸ rfl)

lemma mem_of_isSuffixOf {l₁ l₂ : PyStr} {a : Nat}
    (h : l₁.isSuffixOf l₂) (ha : a ∈ l₁) : a ∈ l₂ :=
  (List.isSuffixOf_iff_suffix.mp h).subset ha

lemma mem_of_isPrefixOf {l₁ l₂ : PyStr} {a : Nat}
    (h : l₁.isPrefixOf l₂) (ha : a ∈ l₁) : a ∈ l₂ :=
  (List.isPrefixOf_iff_prefix.mp h).subset ha

lemma receiptOut_no_95 {s : PyStr} : 95 ∉ (strN "receipt." ++ normalizeSegments s) := by
  intro h
  rcases List.mem_append.mp h with h1 | h2
  · revert h1
    decide
  · obtain ⟨d, _, hd⟩ := List.mem_map.mp h2
    exact segChar_ne_95 d hd

lemma receiptOut_no_47 {s : PyStr} : 47 ∉ (strN "receipt." ++ normalizeSegments s) := by
  intro h
  rcases List.mem_append.mp h with h1 | h2
  · revert h1
    decide
  · obtain ⟨d, _, hd⟩ := List.mem_map.mp h2
    exact segChar_ne_47 d hd

lemma no_95_upper {l : PyStr} (h : 95 ∉ l) : 95 ∉ l.map upperChar := by
  intro hm
  obtain ⟨c, hc, he⟩ := List.mem_map.mp hm
  exact h (upperChar_eq_95 he ▸ hc)

lemma no_47_upper {l : PyStr} (h : 47 ∉ l) : 47 ∉ l.map upperChar := by
  intro hm
  obtain ⟨c, hc, he⟩ := List.mem_map.mp hm
  exact h (upperChar_eq_47 he ▸ hc)

lemma map_segChar_normalizeSegments (s : PyStr) :
    (normalizeSegments s).map segChar = normalizeSegments s := by
  unfold normalizeSegments
  rw [List.map_map]
  apply List.map_congr_left
  intro a _
  exact segChar_segChar a

lemma head?_append_left {a b : PyStr} (h : a ≠ []) : (a ++ b).head? = a.head? := by
  cases a with
  | nil => exact absurd rfl h
  | cons x xs => rfl

lemma seg_upper_letter {d k : Nat} (hk : 65 ≤ k ∧ k ≤ 90)
    (h : upperChar (segChar d) = k) : segChar d = k + 32 := by
  simp only [segChar, lowerChar, upperChar] at *
  split_ifs at * <;> omega

lemma map_upperChar_letters {l K : PyStr}
    (hl : ∀ c ∈ l, ∃ d, c = segChar d)
    (hK : ∀ k ∈ K, 65 ≤ k ∧ k ≤ 90)
    (h : l.map upperChar = K) : l = K.map (fun k => k + 32) := by
  induction l generalizing K with
  | nil =>
    simp only [List.map_nil] at h
    subst h
    rfl
  | cons c cs ih =>
    cases K with
    | nil => simp at h
    | cons k ks =>
      simp only [List.map_cons, List.cons.injEq] at h ⊢
      obtain ⟨d, hd⟩ := hl c (List.mem_cons_self _ _)
      constructor
      · rw [hd]
        exact seg_upper_letter (hK k (List.mem_cons_self _ _)) (hd ▸ h.1)
      · exact ih (fun a ha => hl a (List.mem_cons_of_mem _ ha))
          (fun a ha => hK a (List.mem_cons_of_mem _ ha)) h.2

lemma normalize_receipt_fixed (s : PyStr) :
    normalize_event_type (strN "receipt." ++ normalizeSegments s) =
      strN "receipt." ++ normalizeSegments s := by
  set out := strN "receipt." ++ normalizeSegments s with hout
  have hlit : (strN "receipt." : PyStr) ≠ [] := by decide
  have houtne : out ≠ [] := by
    rw [hout]
    intro h
    exact hlit (List.append_eq_nil.mp h).1
  have hhead : out.head? = some 114 := by
    rw [hout, head?_append_left hlit]
    decide
  have hstrip : pyStrip out = out := by
    apply pyStrip_eq_self
    · intro c hc
      rw [hhead] at hc
      simp only [Option.some.injEq] at hc
      rw [← hc]
      decide
    · intro c hc
      by_cases hB : normalizeSegments s = []
      · rw [hout, hB, List.append_nil] at hc
        have h46 : (strN "receipt." : PyStr).getLast? = some 46 := by decide
        rw [h46] at hc
        simp only [Option.some.injEq] at hc
        rw [← hc]
        decide
      · rw [hout, List.getLast?_append_of_ne_nil _ hB,
          ← pyStrip_normalizeSegments s] at hc
        exact getLast?_pyStrip_not hc
  have hupperhead : (out.map upperChar).head? = some 82 := by
    rw [List.head?_map, hhead]
    decide
  have hlookup : lookupL (out.map upperChar) legacyEventTypeMap = none := by
    apply lookupL_eq_none_of
    intro kv hkv
    apply ne_of_head?_ne
    rw [hupperhead]
    fin_cases hkv <;> decide
  have hno47 : 47 ∉ out := hout ▸ receiptOut_no_47
  have hno95 : 95 ∉ out := hout ▸ receiptOut_no_95
  have hpre : ¬ ((strN "RECEIPT/").isPrefixOf (out.map upperChar) = true) :=
    fun h => (no_47_upper hno47) (mem_of_isPrefixOf h (by decide))
  have hsuf : ¬ ((strN "_RECEIPT").isSuffixOf (out.map upperChar) = true) :=
    fun h => (no_95_upper hno95) (mem_of_isSuffixOf h (by decide))
  simp only [normalize_event_type]
  rw [hstrip, if_neg houtne, hlookup, Option.getD_none]
  rw [if_neg hpre, if_neg (fun hand => hsuf hand.1)]
  rw [normalizeSegments, hstrip, hout, List.map_append,
    map_segChar_normalizeSegments]
  have : (strN "receipt.").map segChar = strN "receipt." := by decide
  rw [this]

lemma normalize_normSeg_fixed (s : PyStr) :
    normalize_event_type (normalizeSegments s) = normalizeSegments s := by
  by_cases h0 : pyStrip s = []
  · unfold normalizeSegments
    rw [h0]
    decide
  · set out := normalizeSegments s with hout
    have houtmap : out = (pyStrip s).map segChar := by rw [hout, normalizeSegments]
    have houtne : out ≠ [] := by
      rw [houtmap]
      simpa using h0
    have hstrip : pyStrip out = out := hout ▸ pyStrip_normalizeSegments s
    have hno95 : 95 ∉ out := by
      intro h
      rw [houtmap] at h
      obtain ⟨d, _, hd⟩ := List.mem_map.mp h
      exact segChar_ne_95 d hd
    have hno47 : 47 ∉ out := by
      intro h
      rw [houtmap] at h
      obtain ⟨d, _, hd⟩ := List.mem_map.mp h
      exact segChar_ne_47 d hd
    have hseg : ∀ c ∈ out, ∃ d, c = segChar d := by
      intro c hc
      rw [houtmap] at hc
      obtain ⟨d, _, hd⟩ := List.mem_map.mp hc
      exact ⟨d, hd.symm⟩
    simp only [normalize_event_type]
    rw [hstrip, if_neg houtne]
    cases hl : lookupL (out.map upperChar) legacyEventTypeMap with
    | some v =>
      rw [Option.getD_some]
      have hmem := lookupL_mem hl
      simp only [legacyEventTypeMap, List.mem_cons, List.not_mem_nil,
        or_false, Prod.mk.injEq] at hmem
      rcases hmem with h | h | h | h | h | h | h | h | h | h
      all_goals first
        | (exfalso
           apply no_95_upper hno95
           rw [h.1]
           decide)
        | skip
      · -- CHECKPOINT -> checkpoint, which is exactly `out`
        have := map_upperChar_letters hseg (by decide) h.1
        rw [h.2, this]
        decide
      · -- UNDO -> undo, which is exactly `out`
        have := map_upperChar_letters hseg (by decide) h.1
        rw [h.2, this]
        decide
    | none =>
      rw [Option.getD_none]
      have hpre : ¬ ((strN "RECEIPT/").isPrefixOf (out.map upperChar) = true) :=
        fun h => (no_47_upper hno47) (mem_of_isPrefixOf h (by decide))
      have hsuf : ¬ ((strN "_RECEIPT").isSuffixOf (out.map upperChar) = true) :=
        fun h => (no_95_upper hno95) (mem_of_isSuffixOf h (by decide))
      rw [if_neg hpre, if_neg (fun hand => hsuf hand.1)]
      rw [normalizeSegments, hstrip, houtmap, List.map_map]
      apply List.map_congr_left
      intro a _
      exact segChar_segChar a

end EventContract

example : EventContract.normalize_event_type (strN "NOTE/REQUEST_VERIFY") =
    strN "note.request.verify" := by decide

example : EventContract.normalize_event_type (strN "READ_RECEIPT") =
    strN "receipt.read" := by decide

example : EventContract.normalize_event_type (strN "RECEIPT/CONTEXT_FOOTPRINT") =
    strN "receipt.context.footprint" := by decide

example : EventContract.normalize_event_type (strN "  note.conjecture ") =
    strN "note.conjecture" := by decide

/-- C4 (counterexample): the claimed three-step chain breaks at its second
step.  From CALM, `user_idk=true` gives CURIOUS; but applying the transition
function to that resulting mood (CURIOUS) with `verifiers_regress=true`
returns CURIOUS unchanged (no per-state rule fires from CURIOUS), not
SKEPTICAL as the claim asserts. -/
theorem C4_counterexample :
    MoodEngine.transition_mood
        (MoodEngine.transition_mood MoodEngine.MOOD_CALM { user_idk := true })
        { verifiers_regress := true } = MoodEngine.MOOD_CURIOUS ∧
      MoodEngine.MOOD_CURIOUS ≠ MoodEngine.MOOD_SKEPTICAL := by
  decide

/-- C4 (amended): from CALM, `user_idk=true` yields CURIOUS; applying the
transition to that result with `verifiers_regress=true` leaves it CURIOUS
(no rule fires from CURIOUS); the CALM-to-SKEPTICAL step holds when applied
from CALM itself (`verifiers_regress=true` on CALM gives SKEPTICAL), and
`verified_and_bounded=true` on SKEPTICAL gives CALM. -/
theorem C4_mood_transition_amended :
    MoodEngine.transition_mood MoodEngine.MOOD_CALM { user_idk := true } =
        MoodEngine.MOOD_CURIOUS ∧
      MoodEngine.transition_mood MoodEngine.MOOD_CURIOUS
          { verifiers_regress := true } = MoodEngine.MOOD_CURIOUS ∧
      MoodEngine.transition_mood MoodEngine.MOOD_CALM
          { verifiers_regress := true } = MoodEngine.MOOD_SKEPTICAL ∧
      MoodEngine.transition_mood MoodEngine.MOOD_SKEPTICAL
          { verified_and_bounded := true } = MoodEngine.MOOD_CALM := by
  decide

/-- C8: event-type normalization is idempotent on every string, and every
legacy uppercase/underscored type name maps to its canonical dotted
lower-case form. -/
theorem C8_normalize_idempotent_and_legacy :
    (∀ x : PyStr,
      EventContract.normalize_event_type (EventContract.normalize_event_type x) =
        EventContract.normalize_event_type x) ∧
      EventContract.normalize_event_type (strN "FILE_WRITE") = strN "file.write" ∧
      EventContract.normalize_event_type (strN "FILE_DELETE") = strN "file.delete" ∧
      EventContract.normalize_event_type (strN "FILE_MOVE") = strN "file.move" ∧
      EventContract.normalize_event_type (strN "CONVERSATION_MESSAGE") = strN "message" ∧
      EventContract.normalize_event_type (strN "TOOL_CALL") = strN "tool.call" ∧
      EventContract.normalize_event_type (strN "TOOL_RESULT") = strN "tool.result" ∧
      EventContract.normalize_event_type (strN "WINDOW_OPEN") = strN "window.open" ∧
      EventContract.normalize_event_type (strN "WINDOW_CLOSE") = strN "window.close" ∧
      EventContract.normalize_event_type (strN "CHECKPOINT") = strN "checkpoint" ∧
      EventContract.normalize_event_type (strN "UNDO") = strN "undo" := by
  open EventContract in
  constructor
  · intro x
    by_cases h0 : pyStrip x = []
    · have h1 : normalize_event_type x = [] := by
        simp only [normalize_event_type]
        rw [h0]
        rfl
      rw [h1]
      decide
    · cases hl : lookupL ((pyStrip x).map upperChar) legacyEventTypeMap with
      | some v =>
        have h1 : normalize_event_type x = v := by
          simp only [normalize_event_type]
          rw [if_neg h0, hl, Option.getD_some]
        rw [h1]
        have hmem := lookupL_mem hl
        simp only [legacyEventTypeMap, List.mem_cons, List.not_mem_nil, or_false,
          Prod.mk.injEq] at hmem
        rcases hmem with h | h | h | h | h | h | h | h | h | h <;> rw [h.2] <;> decide
      | none =>
        by_cases hpre : (strN "RECEIPT/").isPrefixOf ((pyStrip x).map upperChar) = true
        · have h1 : normalize_event_type x =
              strN "receipt." ++ normalizeSegments (afterFirst 47 (pyStrip x)) := by
            simp only [normalize_event_type]
            rw [if_neg h0, hl, Option.getD_none, if_pos hpre]
          rw [h1]
          exact normalize_receipt_fixed _
        · by_cases hsuf :
              ((strN "_RECEIPT").isSuffixOf ((pyStrip x).map upperChar) = true)
                ∧ (pyStrip x).map upperChar ≠ strN "RECEIPT"
          · have h1 : normalize_event_type x = strN "receipt." ++
                normalizeSegments ((pyStrip x).take ((pyStrip x).length - 8)) := by
              simp only [normalize_event_type]
              rw [if_neg h0, hl, Option.getD_none, if_neg hpre, if_pos hsuf]
            rw [h1]
            exact normalize_receipt_fixed _
          · have h1 : normalize_event_type x = normalizeSegments (pyStrip x) := by
              simp only [normalize_event_type]
              rw [if_neg h0, hl, Option.getD_none, if_neg hpre, if_neg hsuf]
            rw [h1]
            exact normalize_normSeg_fixed _
  · decide

namespace VerifierPlan

lemma pySorted_eq_of_perm {l₁ l₂ : List PyStr} (h : l₁.Perm l₂) :
    pySorted l₁ = pySorted l₂ := by
  apply List.eq_of_perm_of_sorted (r := (· ≤ ·))
  · exact ((List.perm_insertionSort _ _).trans h).trans
      (List.perm_insertionSort _ _).symm
  · exact List.sorted_insertionSort _ _
  · exact List.sorted_insertionSort _ _

lemma pySortedSet_eq_of_mem_iff {l₁ l₂ : List PyStr}
    (h : ∀ a, a ∈ l₁ ↔ a ∈ l₂) : pySortedSet l₁ = pySortedSet l₂ :=
  pySorted_eq_of_perm
    ((List.perm_ext_iff_of_nodup (List.nodup_dedup _) (List.nodup_dedup _)).mpr
      (fun a => by rw [List.mem_dedup, List.mem_dedup]; exact h a))

lemma mem_pySortedSet {l : List PyStr} {a : PyStr} :
    a ∈ pySortedSet l ↔ a ∈ l := by
  unfold pySortedSet
  rw [(List.perm_insertionSort _ _).mem_iff, List.mem_dedup]

lemma any_eq_of_mem_iff {α : Type} {l₁ l₂ : List α}
    (h : ∀ a, a ∈ l₁ ↔ a ∈ l₂) (g : α → Bool) : l₁.any g = l₂.any g := by
  have hiff : l₁.any g = true ↔ l₂.any g = true := by
    simp only [List.any_eq_true]
    exact ⟨fun ⟨a, ha, hg⟩ => ⟨a, (h a).mp ha, hg⟩,
      fun ⟨a, ha, hg⟩ => ⟨a, (h a).mpr ha, hg⟩⟩
  cases h₁ : l₁.any g <;> cases h₂ : l₂.any g <;> simp_all

lemma matches_scope_eq_of_mem_iff {t₁ t₂ : List PyStr}
    (h : ∀ p, p ∈ t₁ ↔ p ∈ t₂) :
    ∀ scopes, _matches_scope t₁ scopes = _matches_scope t₂ scopes := by
  intro scopes
  have hmap : ∀ q, q ∈ t₁.map _normalize_path ↔ q ∈ t₂.map _normalize_path := by
    intro q
    simp only [List.mem_map]
    exact ⟨fun ⟨p, hp, he⟩ => ⟨p, (h p).mp hp, he⟩,
      fun ⟨p, hp, he⟩ => ⟨p, (h p).mpr hp, he⟩⟩
  unfold _matches_scope
  induction scopes with
  | nil => rfl
  | cons sc rest ih =>
    simp only [List.any_cons]
    rw [ih]
    congr 1
    split_ifs <;> exact any_eq_of_mem_iff hmap _

lemma scopeEntry_eq_of_mem_iff {t₁ t₂ : List PyStr}
    (h : ∀ p, p ∈ t₁ ↔ p ∈ t₂) (mood_key : PyStr) :
    scopeEntry t₁ mood_key = scopeEntry t₂ mood_key := by
  funext v
  unfold scopeEntry
  cases v.id with
  | none => rfl
  | some vid => rw [matches_scope_eq_of_mem_iff h]

lemma mem_selectedList_iff {cfg : VerifierConfig} {t₁ t₂ req₁ req₂ : List PyStr}
    {mood_key : PyStr} (hreq : req₁.Perm req₂) (ht : ∀ p, p ∈ t₁ ↔ p ∈ t₂) :
    ∀ a, a ∈ selectedList cfg t₁ mood_key req₁ ↔
      a ∈ selectedList cfg t₂ mood_key req₂ := by
  intro a
  unfold selectedList
  rw [scopeEntry_eq_of_mem_iff ht]
  simp only [List.mem_append]
  exact or_congr (or_congr ((hreq.filter _).mem_iff) Iff.rfl) Iff.rfl

/-- C3 (counterexample): `select_verifier_plan` is not invariant under
duplication of `required_verifiers`.  With an empty catalog, requiring
`["X"]` versus `["X", "X"]` produces different plans: `sorted(required)`
and `sorted(unknown_required)` keep duplicates, so `unknown_required`
(and with it the hashed inputs) differ. -/
theorem C3_counterexample :
    select_verifier_plan {} [] none [strN "X"] none ≠
      select_verifier_plan {} [] none [strN "X", strN "X"] none := by
  intro h
  have h2 := congrArg Plan.unknown_required h
  have h3 : (select_verifier_plan {} [] none [strN "X"] none).unknown_required ≠
      (select_verifier_plan {} [] none [strN "X", strN "X"] none).unknown_required := by
    decide
  exact h3 h2

/-- C3 (amended): `select_verifier_plan` is deterministic; it is invariant
under permutation of `required_verifiers` and under permutation and
duplication of `touched_paths` (any two touched lists with the same
members give the same plan); `plan_id` is the SHA-256 of `"plan:"`
followed by `inputs_hash`; and `inputs_hash` is the SHA-256 of the
canonical JSON (sorted keys, compact separators) of the sorted, normalized
touched paths, the upper-cased mood (or null), the sorted required list,
the risk tier, the sorted verifier ids and the sorted unknown required
ids.  Duplication of `required_verifiers` is NOT invariant: the sorted
required and unknown-required lists keep duplicates and are hashed. -/
theorem C3_plan_deterministic_amended (cfg : VerifierConfig)
    (t₁ t₂ req₁ req₂ : List PyStr) (mood risk : Option PyStr)
    (hreq : req₁.Perm req₂) (ht : ∀ p, p ∈ t₁ ↔ p ∈ t₂) :
    select_verifier_plan cfg t₁ mood req₁ risk =
        select_verifier_plan cfg t₂ mood req₂ risk ∧
      (select_verifier_plan cfg t₁ mood req₁ risk).plan_id =
        SHA256.sha256HexOfStr (strN "plan:" ++
          (select_verifier_plan cfg t₁ mood req₁ risk).inputs_hash) ∧
      (select_verifier_plan cfg t₁ mood req₁ risk).inputs_hash =
        SHA256.sha256HexOfStr (canonicalInputsJson
          (pySortedSet (t₁.map _normalize_path))
          (if (mood.getD []).map upperChar = [] then none
            else some ((mood.getD []).map upperChar))
          (pySorted req₁) risk
          (select_verifier_plan cfg t₁ mood req₁ risk).verifier_ids
          (select_verifier_plan cfg t₁ mood req₁ risk).unknown_required) := by
  refine ⟨?_, rfl, rfl⟩
  have hmap : ∀ q, q ∈ t₁.map _normalize_path ↔ q ∈ t₂.map _normalize_path := by
    intro q
    simp only [List.mem_map]
    exact ⟨fun ⟨p, hp, he⟩ => ⟨p, (ht p).mp hp, he⟩,
      fun ⟨p, hp, he⟩ => ⟨p, (ht p).mpr hp, he⟩⟩
  simp only [select_verifier_plan]
  rw [pySorted_eq_of_perm hreq, pySorted_eq_of_perm (hreq.filter _),
    pySortedSet_eq_of_mem_iff hmap,
    pySortedSet_eq_of_mem_iff (mem_selectedList_iff hreq ht)]

end VerifierPlan

namespace VerifierPlan

lemma scopeEntry_empty_mood {touched : List PyStr} {v : CatalogVerifier} {i : PyStr} :
    scopeEntry touched [] v = some i ↔
      v.id = some i ∧ _matches_scope touched v.scopes = true := by
  unfold scopeEntry
  cases hid : v.id with
  | none => simp
  | some vid =>
    by_cases hm : _matches_scope touched v.scopes = true
    · simp [hm]
    · simp [hm]

/-- C10: with `mood=None` or the empty string, the mood key is empty, so
the mood-membership filter is skipped for every catalog verifier (those
declaring `moods` are still included whenever a touched path matches one
of their scopes), and no mood-default verifiers are added (the defaults
table, keyed by mood names, has no entry for the empty key): an id is
selected exactly when it is a known required id or some catalog entry
carries it and matches the touched paths. -/
theorem C10_empty_mood_selection (cfg : VerifierConfig)
    (touched req : List PyStr) (risk : Option PyStr) (mood : Option PyStr)
    (hmood : mood = none ∨ mood = some [])
    (hdef : lookupL [] cfg.mood_defaults = none) :
    ∀ i, i ∈ (select_verifier_plan cfg touched mood req risk).verifier_ids ↔
      ((i ∈ req ∧ i ∈ knownIds cfg.verifiers) ∨
        ∃ v ∈ cfg.verifiers, v.id = some i ∧
          _matches_scope touched v.scopes = true) := by
  intro i
  have hkey : (mood.getD []).map upperChar = [] := by
    rcases hmood with h | h <;> rw [h] <;> rfl
  have hv : (select_verifier_plan cfg touched mood req risk).verifier_ids =
      pySortedSet (selectedList cfg touched [] req) := by
    simp only [select_verifier_plan]
    rw [hkey]
  rw [hv, mem_pySortedSet]
  unfold selectedList
  simp only [List.mem_append, List.mem_filter, List.mem_filterMap,
    decide_eq_true_iff, hdef, Option.getD_none, List.filter_nil,
    List.not_mem_nil, or_false, scopeEntry_empty_mood]

end VerifierPlan

namespace VerifierPlan

theorem C3_plan_deterministic_amended_witness :
    (([strN "V1"] : List PyStr).Perm [strN "V1"]) ∧
      (∀ p : PyStr, p ∈ [strN "a.txt", strN "a.txt"] ↔ p ∈ [strN "a.txt"]) ∧
      select_verifier_plan {} [strN "a.txt", strN "a.txt"] none [strN "V1"] none =
        select_verifier_plan {} [strN "a.txt"] none [strN "V1"] none :=
  ⟨List.Perm.refl _, fun p => by simp,
    (C3_plan_deterministic_amended {} [strN "a.txt", strN "a.txt"] [strN "a.txt"]
      [strN "V1"] [strN "V1"] none none (List.Perm.refl _) (fun p => by simp)).1⟩

theorem C10_empty_mood_selection_witness :
    ((some ([] : PyStr) = none ∨ some ([] : PyStr) = some []) ∧
      lookupL ([] : PyStr) sampleConfig.mood_defaults = none) ∧
      (∀ i, i ∈ (select_verifier_plan sampleConfig [strN "src/a.txt"]
          (some []) [] none).verifier_ids ↔
        ((i ∈ ([] : List PyStr) ∧ i ∈ knownIds sampleConfig.verifiers) ∨
          ∃ v ∈ sampleConfig.verifiers, v.id = some i ∧
            _matches_scope [strN "src/a.txt"] v.scopes = true)) :=
  ⟨⟨Or.inr rfl, rfl⟩,
    C10_empty_mood_selection sampleConfig [strN "src/a.txt"] [] none (some [])
      (Or.inr rfl) rfl⟩

end VerifierPlan

namespace VerifierRun

/-- C5: a timed-out command surfaces as `timed_out=true, return_code=124`,
and the verifier runner (with the optional semantic analyzer unavailable,
`baml = none`) records status `fail` for it; in general without the
analyzer the status is `pass` exactly when the return code is zero. -/
theorem C5_timeout_verifier_fail (vid out err : PyStr)
    (baml : Option BamlAnalysis) (hb : baml = none) :
    (localSandboxRun (.timedOut out err)).timed_out = true ∧
    (localSandboxRun (.timedOut out err)).return_code = 124 ∧
    (verifier_run vid (.timedOut out err) baml).status = strN "fail" ∧
    (∀ outcome, (verifier_run vid outcome baml).status = strN "pass" ↔
      (localSandboxRun outcome).return_code = 0) := by
  subst hb
  refine ⟨rfl, rfl, ?_, ?_⟩
  · simp [verifier_run, verifierStatus, localSandboxRun]
  · intro outcome
    have hne : strN "fail" ≠ strN "pass" := by decide
    simp only [verifier_run, verifierStatus]
    by_cases h : (localSandboxRun outcome).return_code = 0
    · simp [h]
    · simp [h, hne]

theorem C5_timeout_verifier_fail_witness :
    (none : Option BamlAnalysis) = none ∧
      ((localSandboxRun (.timedOut [] [])).timed_out = true ∧
        (localSandboxRun (.timedOut [] [])).return_code = 124 ∧
        (verifier_run (strN "V1") (.timedOut [] []) none).status = strN "fail" ∧
        (∀ outcome, (verifier_run (strN "V1") outcome none).status = strN "pass" ↔
          (localSandboxRun outcome).return_code = 0)) :=
  ⟨rfl, C5_timeout_verifier_fail (strN "V1") [] [] none rfl⟩

end VerifierRun

namespace Db

lemma lookupL_append {A : Type} (k : PyStr) (a b : List (PyStr × A)) :
    lookupL k (a ++ b) =
      match lookupL k a with
      | some v => some v
      | none => lookupL k b := by
  induction a with
  | nil => rfl
  | cons kv rest ih =>
    obtain ⟨k₀, v₀⟩ := kv
    simp only [List.cons_append, lookupL]
    by_cases h : k = k₀
    · simp [h]
    · simp [h, ih]

lemma lookupL_setKey (st : AhdbState) (k k' : PyStr) (v : PVal) :
    lookupL k' (setKey st k v) = if k' = k then some v else lookupL k' st := by
  induction st with
  | nil => simp [setKey, lookupL]
  | cons kv rest ih =>
    obtain ⟨k₀, v₀⟩ := kv
    by_cases h0 : k₀ = k
    · subst h0
      have hsk : setKey ((k₀, v₀) :: rest) k₀ v = (k₀, v) :: rest := by
        simp [setKey]
      rw [hsk]
      by_cases h1 : k' = k₀ <;> simp [lookupL, h1]
    · have hsk : setKey ((k₀, v₀) :: rest) k v = (k₀, v₀) :: setKey rest k v := by
        simp [setKey, h0]
      rw [hsk]
      by_cases h1 : k' = k₀
      · subst h1
        have h2 : ¬ (k' = k) := fun he => h0 (he ▸ rfl)
        simp [lookupL, h2]
      · simp [lookupL, h1, ih]

lemma lookupL_apply (d : Payload) (st : AhdbState) (k : PyStr) :
    lookupL k (_apply_ahdb_delta st d) =
      match lookupLast k d with
      | some v => some v
      | none => lookupL k st := by
  induction d generalizing st with
  | nil => rfl
  | cons kv rest ih =>
    obtain ⟨k₀, v₀⟩ := kv
    have hstep : _apply_ahdb_delta st ((k₀, v₀) :: rest) =
        _apply_ahdb_delta (setKey st k₀ v₀) rest := rfl
    rw [hstep, ih]
    have hlast : lookupLast k ((k₀, v₀) :: rest) =
        match lookupLast k rest with
        | some v => some v
        | none => if k = k₀ then some v₀ else none := by
      unfold lookupLast
      simp only [List.reverse_cons]
      rw [lookupL_append]
      cases lookupL k rest.reverse <;> simp [lookupL]
    rw [hlast]
    cases lookupLast k rest with
    | some v => rfl
    | none =>
      simp only [lookupL_setKey]
      by_cases h : k = k₀ <;> simp [h]

lemma lastVal_fold (k : PyStr) :
    ∀ (ds : List Payload) (a : Option PVal),
      ds.foldl (fun acc d =>
        match lookupLast k d with
        | some v => some v
        | none => acc) a =
      match lastVal k ds with
      | some v => some v
      | none => a := by
  intro ds
  induction ds with
  | nil => intro a; rfl
  | cons d rest ih =>
    intro a
    have h1 : lastVal k (d :: rest) = rest.foldl (fun acc d' =>
        match lookupLast k d' with
        | some v => some v
        | none => acc) (match lookupLast k d with
          | some v => some v
          | none => none) := rfl
    simp only [List.foldl_cons]
    rw [ih, h1, ih]
    cases lastVal k rest with
    | some v => rfl
    | none => cases lookupLast k d <;> rfl

lemma lastVal_cons (k : PyStr) (d : Payload) (rest : List Payload) :
    lastVal k (d :: rest) =
      match lastVal k rest with
      | some v => some v
      | none => lookupLast k d := by
  have h1 : lastVal k (d :: rest) = rest.foldl (fun acc d' =>
      match lookupLast k d' with
      | some v => some v
      | none => acc) (match lookupLast k d with
        | some v => some v
        | none => none) := rfl
  rw [h1, lastVal_fold]
  cases lastVal k rest with
  | some v => rfl
  | none => cases lookupLast k d <;> rfl

lemma ahdbStateOf_lookup (ds : List Payload) (k : PyStr) :
    lookupL k (ahdbStateOf ds) = lastVal k ds := by
  have H : ∀ (ds : List Payload) (st : AhdbState),
      lookupL k (ds.foldl _apply_ahdb_delta st) =
        match lastVal k ds with
        | some v => some v
        | none => lookupL k st := by
    intro ds
    induction ds with
    | nil => intro st; rfl
    | cons d rest ih =>
      intro st
      simp only [List.foldl_cons]
      rw [ih, lookupL_apply, lastVal_cons]
      cases lastVal k rest with
      | some v => rfl
      | none => cases lookupLast k d <;> rfl
  rw [ahdbStateOf, H]
  cases lastVal k ds <;> simp [lookupL]

lemma ahdbAppend_rebuild {st : AhdbStore} (t : PyStr) (p : Payload)
    (h : st.ahdb = rebuildAhdb st.log) :
    (ahdbAppend st t p).ahdb = rebuildAhdb (ahdbAppend st t p).log := by
  have he : (ahdbAppend st t p).log = st.log ++
      [{ seq := get_latest_seq st.log + 1
       , type := EventContract.normalize_event_type t, payload := p }] := rfl
  have ha : (ahdbAppend st t p).ahdb = materializeAhdb st.ahdb
      { seq := get_latest_seq st.log + 1
      , type := EventContract.normalize_event_type t, payload := p } := by
    simp only [ahdbAppend, append_event]
    rw [List.getLast?_concat]
    rfl
  rw [ha, he, h]
  unfold rebuildAhdb
  rw [List.foldl_append]
  rfl

lemma ahdbAppendAll_rebuild (items : List (PyStr × Payload)) :
    ∀ st : AhdbStore, st.ahdb = rebuildAhdb st.log →
      (ahdbAppendAll st items).ahdb = rebuildAhdb (ahdbAppendAll st items).log := by
  induction items with
  | nil => intro st h; exact h
  | cons tp rest ih =>
    intro st h
    exact ih _ (ahdbAppend_rebuild tp.1 tp.2 h)

end Db

/-- C6: the AHDB projection is last-writer-wins per slot: for every
sequence of deltas, each slot maps to the value of the last delta (in
event order) containing that slot; the state is independent of how the
deltas are batched (applying a concatenation equals applying the batches
in turn); rebuilding the projection from the event log reproduces the
incrementally-maintained state; and the concrete two-delta scenario
(`assert:=a1`, then `assert:=a2, drive:=d1`) rebuilds to
`assert = [a2-entry]`, `drive = [d1-entry]`. -/
theorem C6_ahdb_last_writer_wins :
    (∀ (ds : List Db.Payload) (k : PyStr),
      lookupL k (Db.ahdbStateOf ds) = Db.lastVal k ds) ∧
    (∀ (ds₁ ds₂ : List Db.Payload),
      Db.ahdbStateOf (ds₁ ++ ds₂) =
        ds₂.foldl Db._apply_ahdb_delta (Db.ahdbStateOf ds₁)) ∧
    (∀ (items : List (PyStr × Db.Payload)),
      (Db.ahdbAppendAll {} items).ahdb =
        Db.rebuildAhdb (Db.ahdbAppendAll {} items).log) ∧
    (lookupL (strN "assert")
        (Db.rebuildAhdb (Db.ahdbAppendAll {}
          [ (strN "receipt.ahdb.delta",
             [(strN "delta", Db.PVal.dict
               [(strN "assert", strN "[\x7b\"id\": \"a1\"\x7d]")])])
          , (strN "receipt.ahdb.delta",
             [(strN "delta", Db.PVal.dict
               [ (strN "assert", strN "[\x7b\"id\": \"a2\"\x7d]")
               , (strN "drive", strN "[\x7b\"id\": \"d1\"\x7d]") ])]) ]).log) =
        some (Db.PVal.prim (strN "[\x7b\"id\": \"a2\"\x7d]")) ∧
      lookupL (strN "drive")
        (Db.rebuildAhdb (Db.ahdbAppendAll {}
          [ (strN "receipt.ahdb.delta",
             [(strN "delta", Db.PVal.dict
               [(strN "assert", strN "[\x7b\"id\": \"a1\"\x7d]")])])
          , (strN "receipt.ahdb.delta",
             [(strN "delta", Db.PVal.dict
               [ (strN "assert", strN "[\x7b\"id\": \"a2\"\x7d]")
               , (strN "drive", strN "[\x7b\"id\": \"d1\"\x7d]") ])]) ]).log) =
        some (Db.PVal.prim (strN "[\x7b\"id\": \"d1\"\x7d]"))) := by
  refine ⟨Db.ahdbStateOf_lookup, ?_, fun items => Db.ahdbAppendAll_rebuild items {} rfl, ?_⟩
  · intro ds₁ ds₂
    unfold Db.ahdbStateOf
    rw [List.foldl_append]
  · constructor <;> decide

namespace Db

lemma foldl_max_ge (l : List Event) : ∀ a : Nat,
    a ≤ l.foldl (fun m e => max m e.seq) a := by
  induction l with
  | nil => intro a; exact Nat.le_refl a
  | cons e rest ih =>
    intro a
    exact le_trans (Nat.le_max_left a e.seq) (ih (max a e.seq))

lemma seq_le_latest {e : Event} {l : List Event} (h : e ∈ l) :
    e.seq ≤ get_latest_seq l := by
  unfold get_latest_seq
  generalize 0 = a
  induction l generalizing a with
  | nil => simp at h
  | cons x rest ih =>
    rcases List.mem_cons.mp h with h1 | h1
    · subst h1
      exact le_trans (Nat.le_max_right a e.seq) (foldl_max_ge rest (max a e.seq))
    · exact ih h1 (max a x.seq)

lemma latest_concat (l : List Event) (e : Event) :
    get_latest_seq (l ++ [e]) = max (get_latest_seq l) e.seq := by
  unfold get_latest_seq
  rw [List.foldl_append]
  rfl

lemma append_events_split (items : List (PyStr × Payload)) :
    ∀ log₀ : List Event, ∃ new, append_events log₀ items = log₀ ++ new ∧
      ∀ e ∈ new, get_latest_seq log₀ < e.seq := by
  induction items with
  | nil =>
    intro log₀
    exact ⟨[], by simp [append_events], by simp⟩
  | cons tp rest ih =>
    intro log₀
    obtain ⟨new', h1, h2⟩ := ih (append_event log₀ tp.1 tp.2)
    refine ⟨{ seq := get_latest_seq log₀ + 1
            , type := EventContract.normalize_event_type tp.1
            , payload := tp.2 } :: new', ?_, ?_⟩
    · have h3 : append_events log₀ (tp :: rest) =
          append_events (append_event log₀ tp.1 tp.2) rest := rfl
      rw [h3, h1]
      simp [append_event]
    · intro e he
      rcases List.mem_cons.mp he with h4 | h4
      · subst h4
        simp
      · have h5 := h2 e h4
        have h6 : get_latest_seq log₀ ≤
            get_latest_seq (append_event log₀ tp.1 tp.2) := by
          unfold append_event
          rw [latest_concat]
          exact Nat.le_max_left _ _
        omega

end Db

/-- C7: `touched_paths(since_seq)` returns exactly the sorted,
duplicate-free set of `path` / `from` / `to` payload string values of
`file.write` / `file.delete` / `file.move` events with `seq > since_seq`;
and with `start_seq` recorded as the latest sequence number before any
executor events are appended, the pre-existing events never contribute:
dropping them from the log leaves the touched paths unchanged. -/
theorem C7_touched_paths_since :
    (∀ (log : List Db.Event) (since : Nat),
      (Db.get_event_paths_since log since).Sorted (· ≤ ·) ∧
      (Db.get_event_paths_since log since).Nodup ∧
      (∀ p, p ∈ Db.get_event_paths_since log since ↔
        ∃ e ∈ log, since < e.seq ∧ e.type ∈ Db.pathEventTypes ∧
          p ∈ Db.pathVals e.payload)) ∧
    (∀ (log₀ : List Db.Event) (items : List (PyStr × Db.Payload)),
      Db.get_event_paths_since (Db.append_events log₀ items)
          (Db.get_latest_seq log₀) =
        Db.get_event_paths_since
          ((Db.append_events log₀ items).drop log₀.length)
          (Db.get_latest_seq log₀)) := by
  constructor
  · intro log since
    refine ⟨List.sorted_insertionSort _ _,
      ((List.perm_insertionSort _ _).nodup_iff).mpr (List.nodup_dedup _), ?_⟩
    intro p
    unfold Db.get_event_paths_since
    rw [VerifierPlan.mem_pySortedSet]
    simp only [List.mem_flatMap, List.mem_filter, Bool.and_eq_true,
      decide_eq_true_iff]
    constructor
    · rintro ⟨e, ⟨he, h1, h2⟩, h3⟩
      exact ⟨e, he, h1, h2, h3⟩
    · rintro ⟨e, he, h1, h2, h3⟩
      exact ⟨e, ⟨he, h1, h2⟩, h3⟩
  · intro log₀ items
    obtain ⟨new, heq, hgt⟩ := Db.append_events_split items log₀
    rw [heq, List.drop_left]
    unfold Db.get_event_paths_since
    rw [List.filter_append]
    have h0 : log₀.filter (fun e =>
        decide (Db.get_latest_seq log₀ < e.seq) &&
          decide (e.type ∈ Db.pathEventTypes)) = [] := by
      rw [List.filter_eq_nil_iff]
      intro e he
      simp [Nat.not_lt.mpr (Db.seq_le_latest he)]
    rw [h0, List.nil_append]

namespace Tools

lemma occSplit_ne_nil (s pat : PyStr) : occSplit s pat ≠ [] := by
  rw [occSplit]
  split_ifs with h1 h2
  · simp
  · simp
  · cases s with
    | nil => simp
    | cons c cs =>
      cases hsp : occSplit cs pat with
      | nil => simp [hsp]
      | cons p ps => simp [hsp]

lemma intercalate_cons₂ (sep a b : PyStr) (l : List PyStr) :
    List.intercalate sep (a :: b :: l) =
      a ++ sep ++ List.intercalate sep (b :: l) := by
  simp [List.intercalate, List.intersperse]

lemma intercalate_single (sep a : PyStr) : List.intercalate sep [a] = a := by
  simp [List.intercalate]

lemma inter_maps (new : PyStr) : ∀ cs : List Nat,
    List.intercalate new (cs.map (fun c => [c]) ++ [[]]) =
      cs.flatMap (fun c => c :: new) := by
  intro cs
  induction cs with
  | nil => simp [intercalate_single]
  | cons c rest ih =>
    obtain ⟨b, l, hbl⟩ : ∃ b l, rest.map (fun c => [c]) ++ [([] : PyStr)] = b :: l := by
      cases rest with
      | nil => exact ⟨[], [], rfl⟩
      | cons r rs => exact ⟨[r], _, rfl⟩
    simp only [List.map_cons, List.cons_append]
    rw [hbl, intercalate_cons₂, ← hbl, ih]
    simp

lemma pyReplace_empty_pat (new : PyStr) (s : PyStr) :
    List.intercalate new ([[]] ++ s.map (fun c => [c]) ++ [[]]) =
      new ++ s.flatMap (fun c => c :: new) := by
  obtain ⟨b, l, hbl⟩ : ∃ b l, s.map (fun c => [c]) ++ [([] : PyStr)] = b :: l := by
    cases s with
    | nil => exact ⟨[], [], rfl⟩
    | cons r rs => exact ⟨[r], _, rfl⟩
  have h0 : ([[]] : List PyStr) ++ s.map (fun c => [c]) ++ [[]] =
      [] :: (s.map (fun c => [c]) ++ [[]]) := by simp
  rw [h0, hbl, intercalate_cons₂, ← hbl, inter_maps]
  simp

lemma pyReplace_intercalate (old new : PyStr) (s : PyStr) :
    pyReplace s old new = List.intercalate new (occSplit s old) := by
  have H : ∀ (n : Nat) (s : PyStr), s.length ≤ n →
      pyReplace s old new = List.intercalate new (occSplit s old) := by
    intro n
    induction n with
    | zero =>
      intro s hs
      have hnil : s = [] := List.length_eq_zero.mp (Nat.le_zero.mp hs)
      subst hnil
      rw [pyReplace, occSplit]
      by_cases h : old = []
      · simp only [if_pos h]
        simp [intercalate_cons₂, intercalate_single]
      · have hpre : ¬ (old.isPrefixOf ([] : PyStr) = true) := by
          cases old with
          | nil => exact absurd rfl h
          | cons a as => simp [List.isPrefixOf]
        simp only [if_neg h, dif_neg hpre]
        simp [intercalate_single]
    | succ n ih =>
      intro s hs
      rw [pyReplace, occSplit]
      by_cases h : old = []
      · simp only [if_pos h]
        exact (pyReplace_empty_pat new s).symm
      · simp only [if_neg h]
        by_cases hpre : old.isPrefixOf s = true
        · simp only [dif_pos hpre]
          have hlen : (s.drop old.length).length ≤ n := by
            have h1 := (List.isPrefixOf_iff_prefix.mp hpre).length_le
            have h2 : 0 < old.length := by
              cases old with
              | nil => exact absurd rfl h
              | cons a as => simp
            simp only [List.length_drop]
            omega
          rw [ih _ hlen]
          obtain ⟨p, ps, hps⟩ : ∃ p ps, occSplit (s.drop old.length) old = p :: ps := by
            cases hsp : occSplit (s.drop old.length) old with
            | nil => exact absurd hsp (occSplit_ne_nil _ _)
            | cons p ps => exact ⟨p, ps, rfl⟩
          rw [hps, intercalate_cons₂]
          simp
        · simp only [dif_neg hpre]
          cases s with
          | nil => simp [intercalate_single]
          | cons c cs =>
            have hlen : cs.length ≤ n := by
              simp only [List.length_cons] at hs
              omega
            show c :: pyReplace cs old new =
              List.intercalate new
                (match occSplit cs old with
                 | [] => [[c]]
                 | p :: ps => (c :: p) :: ps)
            rw [ih cs hlen]
            obtain ⟨p, ps, hps⟩ : ∃ p ps, occSplit cs old = p :: ps := by
              cases hsp : occSplit cs old with
              | nil => exact absurd hsp (occSplit_ne_nil _ _)
              | cons p ps => exact ⟨p, ps, rfl⟩
            rw [hps]
            show c :: List.intercalate new (p :: ps) =
              List.intercalate new ((c :: p) :: ps)
            cases ps with
            | nil => simp [intercalate_single]
            | cons q qs =>
              rw [intercalate_cons₂, intercalate_cons₂]
              simp
  exact H s.length s (Nat.le_refl _)

lemma pyCount_occSplit (old : PyStr) (s : PyStr) :
    pyCount s old = (occSplit s old).length - 1 := by
  have H : ∀ (n : Nat) (s : PyStr), s.length ≤ n →
      pyCount s old = (occSplit s old).length - 1 := by
    intro n
    induction n with
    | zero =>
      intro s hs
      have hnil : s = [] := List.length_eq_zero.mp (Nat.le_zero.mp hs)
      subst hnil
      rw [pyCount, occSplit]
      by_cases h : old = []
      · simp [h]
      · have hpre : ¬ (old.isPrefixOf ([] : PyStr) = true) := by
          cases old with
          | nil => exact absurd rfl h
          | cons a as => simp [List.isPrefixOf]
        simp only [if_neg h, dif_neg hpre]
        simp
    | succ n ih =>
      intro s hs
      rw [pyCount, occSplit]
      by_cases h : old = []
      · simp [h]
      · simp only [if_neg h]
        by_cases hpre : old.isPrefixOf s = true
        · simp only [dif_pos hpre]
          have hlen : (s.drop old.length).length ≤ n := by
            have h1 := (List.isPrefixOf_iff_prefix.mp hpre).length_le
            have h2 : 0 < old.length := by
              cases old with
              | nil => exact absurd rfl h
              | cons a as => simp
            simp only [List.length_drop]
            omega
          rw [ih _ hlen]
          have hne := occSplit_ne_nil (s.drop old.length) old
          have hpos : 0 < (occSplit (s.drop old.length) old).length :=
            List.length_pos.mpr hne
          simp only [List.length_cons]
          omega
        · simp only [dif_neg hpre]
          cases s with
          | nil => simp
          | cons c cs =>
            have hlen : cs.length ≤ n := by
              simp only [List.length_cons] at hs
              omega
            show pyCount cs old =
              (match occSplit cs old with
               | [] => [[c]]
               | p :: ps => (c :: p) :: ps).length - 1
            rw [ih cs hlen]
            cases hsp : occSplit cs old with
            | nil => exact absurd hsp (occSplit_ne_nil _ _)
            | cons p ps => simp
  exact H s.length s (Nat.le_refl _)

/-- C9: `edit_file` with `dry_run=true` leaves the file content unchanged
and appends no `file.write` event; each edit whose `old_text` occurs in
the current content replaces all occurrences in document order (the
content becomes the interleaving of `new_text` with the occurrence
decomposition, and the recorded occurrence count is the number of
occurrences) and is recorded as `replaced`; without dry-run the final
content is the fold of the edits, and a `file.write` event is appended
exactly when the final content differs from the original. -/
theorem C9_edit_file_dry_run_and_replace (content : PyStr)
    (edits : List (PyStr × PyStr)) (old new : PyStr)
    (changes : List EditChange) (hocc : old <:+: content) :
    ((edit_file content edits true).2.1 = content ∧
      (edit_file content edits true).2.2 = false) ∧
    editStep (content, changes) (old, new) =
      (List.intercalate new (occSplit content old),
        changes ++ [{ old_text := trunc50 old
                    , new_text := some (trunc50 new)
                    , occurrences := some ((occSplit content old).length - 1)
                    , status := strN "replaced" }]) ∧
    ((edit_file content edits false).2.1 = (applyEdits content edits).1 ∧
      ((edit_file content edits false).2.2 = true ↔
        (applyEdits content edits).1 ≠ content)) := by
  refine ⟨⟨rfl, rfl⟩, ?_, ?_⟩
  · unfold editStep
    rw [if_neg (by simpa using hocc)]
    rw [pyReplace_intercalate, pyCount_occSplit]
  · by_cases hch : (applyEdits content edits).1 = content
    · constructor
      · simp [edit_file, hch]
      · simp [edit_file, hch]
    · constructor
      · simp [edit_file, hch]
      · simp [edit_file, hch]

theorem C9_edit_file_dry_run_and_replace_witness :
    (strN "a" <:+: strN "abca") ∧
      (((edit_file (strN "abca") [(strN "a", strN "xy")] true).2.1 = strN "abca" ∧
        (edit_file (strN "abca") [(strN "a", strN "xy")] true).2.2 = false) ∧
      editStep (strN "abca", []) (strN "a", strN "xy") =
        (List.intercalate (strN "xy") (occSplit (strN "abca") (strN "a")),
          [] ++ [{ old_text := trunc50 (strN "a")
                 , new_text := some (trunc50 (strN "xy"))
                 , occurrences := some ((occSplit (strN "abca") (strN "a")).length - 1)
                 , status := strN "replaced" }]) ∧
      ((edit_file (strN "abca") [(strN "a", strN "xy")] false).2.1 =
          (applyEdits (strN "abca") [(strN "a", strN "xy")]).1 ∧
        ((edit_file (strN "abca") [(strN "a", strN "xy")] false).2.2 = true ↔
          (applyEdits (strN "abca") [(strN "a", strN "xy")]).1 ≠ strN "abca"))) :=
  ⟨by decide,
    C9_edit_file_dry_run_and_replace (strN "abca") [(strN "a", strN "xy")]
      (strN "a") (strN "xy") [] (by decide)⟩

end Tools

namespace Orchestrator

/-- The pre-executor phase appends exactly one fresh `running` row, leaves
the commit requests untouched, and produces a trace with no reverts,
rollback restores or rollback notifications. -/
theorem preExec_spec (env : OrchEnv) (st₀ : Store) :
    (preExec env st₀).1.runs = st₀.runs ++
      [{ id := env.run_id, work_item_id := env.work_item_id
       , status := strN "running", mood := env.mood }] ∧
    (preExec env st₀).1.run_commit_requests = st₀.run_commit_requests ∧
    (preExec env st₀).2.reverts = [] ∧
    (preExec env st₀).2.rollback_restores = [] ∧
    (preExec env st₀).2.rollback_notified = [] := by
  simp only [preExec]
  repeat' split
  all_goals first
    | rfl
    | simp [create_run, add_run_note, set_last_good]

/-- The executor phase only appends a note; runs and commit requests are
unchanged. -/
theorem execPhase_proj (env : OrchEnv) (st : Store) :
    (execPhase env st).1.runs = st.runs ∧
    (execPhase env st).1.run_commit_requests = st.run_commit_requests := by
  unfold execPhase
  split <;> simp [add_run_note]

/-- A failing or raising executor yields `success = false`. -/
theorem execPhase_false (env : OrchEnv) (st : Store)
    (hfail : env.executor = .ok false ∨ ∃ e, env.executor = .raises e) :
    (execPhase env st).2 = false := by
  rcases hfail with he | ⟨e, he⟩ <;> simp [execPhase, he]

/-- `find?` over a list whose only row with the sought id is the appended
one returns that row. -/
theorem find?_append_fresh (l : List RunRow) (row : RunRow) (rid : Nat)
    (hl : ∀ r ∈ l, r.id ≠ rid) (hrow : row.id = rid) :
    (l ++ [row]).find? (fun r => r.id = rid) = some row := by
  induction l with
  | nil => simp [List.find?, hrow]
  | cons a t ih =>
    simp only [List.cons_append, List.find?_cons]
    have ha : (decide (a.id = rid)) = false := by
      simp [hl a (List.mem_cons_self a t)]
    rw [ha]
    exact ih (fun r hr => hl r (List.mem_cons_of_mem a hr))

/-- `run_status` and `run_mood` on a store whose runs are fresh rows plus
one appended row with the sought id. -/
theorem run_status_fresh (st : Store) (rid : Nat) (l : List RunRow)
    (row : RunRow) (hruns : st.runs = l ++ [row])
    (hl : ∀ r ∈ l, r.id ≠ rid) (hrow : row.id = rid) :
    run_status st rid = some row.status ∧ run_mood st rid = some row.mood := by
  have hfind : st.runs.find? (fun r => r.id = rid) = some row := by
    rw [hruns]; exact find?_append_fresh l row rid hl hrow
  constructor <;> simp [run_status, run_mood, hfind]

/-- `update_run` over fresh rows plus one appended matching row rewrites
only the appended row. -/
theorem update_run_runs_fresh (st : Store) (rid : Nat) (status : PyStr)
    (mood : Option PyStr) (l : List RunRow) (row : RunRow)
    (hruns : st.runs = l ++ [row]) (hl : ∀ r ∈ l, r.id ≠ rid)
    (hrow : row.id = rid) :
    (update_run st rid status mood).runs
      = l ++ [{ row with status := status, mood := mood.getD row.mood }] := by
  simp only [update_run, hruns, List.map_append]
  congr 1
  · conv_rhs => rw [← List.map_id l]
    apply List.map_congr_left
    intro a ha
    simp [hl a ha]
  · simp [hrow]

/-- Folding `add_run_verification` only extends `run_verifications`. -/
theorem foldl_verif (rid : Nat) (l : List VerifierRun.VerifierResult)
    (st : Store) :
    l.foldl (fun s r => add_run_verification s rid r) st
      = { st with run_verifications :=
            st.run_verifications ++ l.map (fun r => (rid, r)) } := by
  induction l generalizing st with
  | nil => simp
  | cons a t ih =>
    rw [List.foldl_cons, ih]
    simp [add_run_verification, List.append_assoc]

/-- Adjudication sets the run's status to `verified` exactly when all
verifier results passed, with mood `SKEPTICAL` either way. -/
theorem adjudicate_runs (env : OrchEnv) (st : Store) (tr : Trace) :
    (adjudicate env st tr).1.runs
      = (update_run st env.run_id
          (if env.verifier_results.all (fun r => r.status = strN "pass")
           then strN "verified" else strN "failed")
          (some (strN "SKEPTICAL"))).runs := by
  simp only [adjudicate]
  repeat' split
  all_goals rfl

/-- Adjudication appends the run to the commit requests exactly when all
verifier results passed. -/
theorem adjudicate_cr (env : OrchEnv) (st : Store) (tr : Trace) :
    (adjudicate env st tr).1.run_commit_requests
      = if env.verifier_results.all (fun r => r.status = strN "pass")
        then st.run_commit_requests ++ [env.run_id]
        else st.run_commit_requests := by
  simp only [adjudicate]
  repeat' split
  all_goals rfl

/-- When all verifiers passed and the checkpoint succeeded with a sha, the
final `last_good` is that sha. -/
theorem adjudicate_pass_lastgood (env : OrchEnv) (st : Store) (tr : Trace)
    (hall : env.verifier_results.all (fun r => r.status = strN "pass") = true)
    (sha : PyStr) (hsuc : env.checkpoint_result.success = true)
    (hsha : env.checkpoint_result.commit_sha = some sha) :
    (adjudicate env st tr).1.last_good = some sha := by
  simp only [adjudicate, hall, hsha, hsuc, if_true]
  repeat' split
  all_goals rfl


/-- When the executor phase reports failure, `run` takes the early-return
branch: mark failed/SKEPTICAL, write the verify-stage status note, and
stop (no adjudication). -/
theorem run_fail_branch (env : OrchEnv) (st₀ : Store)
    (hsucc : (execPhase env (preExec env st₀).1).2 = false) :
    run env st₀
      = (add_run_note (update_run (execPhase env (preExec env st₀).1).1
            env.run_id (strN "failed") (some (strN "SKEPTICAL")))
            env.run_id (strN "note.status")
            (.statusB (strN "failed") (strN "SKEPTICAL") (strN "verify")),
         { (preExec env st₀).2 with destroys := (preExec env st₀).2.destroys
             + (if env.sandbox_created ∧ env.keep_sandbox = false then 1 else 0) }) := by
  simp only [run, hsucc]
  rfl

/-- When the executor phase reports success, `run` proceeds to the
verifying note, the verifications, and adjudication. -/
theorem run_verify_branch (env : OrchEnv) (st₀ : Store)
    (hsucc : (execPhase env (preExec env st₀).1).2 = true) :
    run env st₀
      = ((adjudicate env (env.verifier_results.foldl
            (fun s r => add_run_verification s env.run_id r)
            (add_run_note (update_run (execPhase env (preExec env st₀).1).1
               env.run_id (strN "verifying") none)
               env.run_id (strN "note.status")
               (.statusB (strN "verifying") env.mood (strN "verify"))))
            (preExec env st₀).2).1,
         { (adjudicate env (env.verifier_results.foldl
            (fun s r => add_run_verification s env.run_id r)
            (add_run_note (update_run (execPhase env (preExec env st₀).1).1
               env.run_id (strN "verifying") none)
               env.run_id (strN "note.status")
               (.statusB (strN "verifying") env.mood (strN "verify"))))
            (preExec env st₀).2).2 with
           destroys := (adjudicate env (env.verifier_results.foldl
            (fun s r => add_run_verification s env.run_id r)
            (add_run_note (update_run (execPhase env (preExec env st₀).1).1
               env.run_id (strN "verifying") none)
               env.run_id (strN "note.status")
               (.statusB (strN "verifying") env.mood (strN "verify"))))
            (preExec env st₀).2).2.destroys
             + (if env.sandbox_created ∧ env.keep_sandbox = false then 1 else 0) }) := by
  simp only [run, hsucc]
  rfl

/-- C1. Amended: when the executor returns failure or raises (against a
store whose rows and commit requests do not already use the fresh run
id), the run ends `failed` with mood `SKEPTICAL` and the verify-stage
`note.status` is written, but the run procedure returns WITHOUT the
rollback step: no repository revert, no sandbox rollback-restore, and no
rollback-sink notification occur, and no commit request is written. -/
theorem C1_executor_failure_amended (env : OrchEnv) (st₀ : Store)
    (hfail : env.executor = .ok false ∨ ∃ e, env.executor = .raises e)
    (hfresh : ∀ r ∈ st₀.runs, r.id ≠ env.run_id)
    (hcr : env.run_id ∉ st₀.run_commit_requests) :
    run_status (run env st₀).1 env.run_id = some (strN "failed") ∧
    run_mood (run env st₀).1 env.run_id = some (strN "SKEPTICAL") ∧
    ({ run_id := env.run_id, note_type := strN "note.status"
     , body := .statusB (strN "failed") (strN "SKEPTICAL") (strN "verify") } : Note)
      ∈ (run env st₀).1.run_notes ∧
    env.run_id ∉ (run env st₀).1.run_commit_requests ∧
    (run env st₀).2.reverts = [] ∧
    (run env st₀).2.rollback_restores = [] ∧
    (run env st₀).2.rollback_notified = [] := by
  obtain ⟨hpr, hpcr, hrev, hrr, hrn⟩ := preExec_spec env st₀
  obtain ⟨her, hecr⟩ := execPhase_proj env (preExec env st₀).1
  have hsucc := execPhase_false env (preExec env st₀).1 hfail
  rw [run_fail_branch env st₀ hsucc]
  have hruns1 : (execPhase env (preExec env st₀).1).1.runs
      = st₀.runs ++ [{ id := env.run_id, work_item_id := env.work_item_id
                     , status := strN "running", mood := env.mood }] :=
    her.trans hpr
  have hu := update_run_runs_fresh (execPhase env (preExec env st₀).1).1
      env.run_id (strN "failed") (some (strN "SKEPTICAL")) st₀.runs _
      hruns1 hfresh rfl
  have hstat := run_status_fresh
      (add_run_note (update_run (execPhase env (preExec env st₀).1).1
         env.run_id (strN "failed") (some (strN "SKEPTICAL")))
         env.run_id (strN "note.status")
         (.statusB (strN "failed") (strN "SKEPTICAL") (strN "verify")))
      env.run_id st₀.runs _ hu hfresh rfl
  refine ⟨hstat.1, hstat.2, ?_, ?_, hrev, hrr, hrn⟩
  · simp [add_run_note]
  · show env.run_id ∉ (add_run_note (update_run (execPhase env
        (preExec env st₀).1).1 env.run_id (strN "failed")
        (some (strN "SKEPTICAL"))) env.run_id (strN "note.status")
        (.statusB (strN "failed") (strN "SKEPTICAL") (strN "verify"))).run_commit_requests
    have hchain : (add_run_note (update_run (execPhase env
        (preExec env st₀).1).1 env.run_id (strN "failed")
        (some (strN "SKEPTICAL"))) env.run_id (strN "note.status")
        (.statusB (strN "failed") (strN "SKEPTICAL") (strN "verify"))).run_commit_requests
        = st₀.run_commit_requests := hecr.trans hpcr
    rw [hchain]
    exact hcr


/-- C1 counterexample to the original claim: the executor raises against
a store holding a last-good checkpoint, the run is marked failed with the
verify-stage note, yet NO rollback happens before the procedure returns:
the repository is not reverted to `last_good`, the sandbox is not
restored, and the rollback sink is not notified. -/
theorem C1_counterexample :
    baseStore.last_good = some (strN "old") ∧
    run_status (run execRaisesEnv baseStore).1 1 = some (strN "failed") ∧
    run_mood (run execRaisesEnv baseStore).1 1 = some (strN "SKEPTICAL") ∧
    ({ run_id := 1, note_type := strN "note.status"
     , body := .statusB (strN "failed") (strN "SKEPTICAL") (strN "verify") } : Note)
      ∈ (run execRaisesEnv baseStore).1.run_notes ∧
    (run execRaisesEnv baseStore).2.reverts = [] ∧
    (run execRaisesEnv baseStore).2.rollback_restores = [] ∧
    (run execRaisesEnv baseStore).2.rollback_notified = [] := by decide

/-- C1 witness: the amended theorem applied to the concrete raising
environment against the base store. -/
theorem C1_executor_failure_amended_witness :
    (execRaisesEnv.executor = .ok false ∨
      ∃ e, execRaisesEnv.executor = .raises e) ∧
    (∀ r ∈ baseStore.runs, r.id ≠ execRaisesEnv.run_id) ∧
    execRaisesEnv.run_id ∉ baseStore.run_commit_requests ∧
    (run_status (run execRaisesEnv baseStore).1 execRaisesEnv.run_id
        = some (strN "failed") ∧
      run_mood (run execRaisesEnv baseStore).1 execRaisesEnv.run_id
        = some (strN "SKEPTICAL") ∧
      ({ run_id := execRaisesEnv.run_id, note_type := strN "note.status"
       , body := .statusB (strN "failed") (strN "SKEPTICAL") (strN "verify") } : Note)
        ∈ (run execRaisesEnv baseStore).1.run_notes ∧
      execRaisesEnv.run_id ∉ (run execRaisesEnv baseStore).1.run_commit_requests ∧
      (run execRaisesEnv baseStore).2.reverts = [] ∧
      (run execRaisesEnv baseStore).2.rollback_restores = [] ∧
      (run execRaisesEnv baseStore).2.rollback_notified = []) :=
  ⟨Or.inr ⟨strN "boom", rfl⟩, by decide, by decide,
   C1_executor_failure_amended execRaisesEnv baseStore
     (Or.inr ⟨strN "boom", rfl⟩) (by decide) (by decide)⟩


/-- C2. Amended terminal-status invariants: against a store whose rows
and commit requests do not already use the fresh run id, a run ending
`verified` has a commit request, and its `last_good` equals the
checkpoint's commit sha PROVIDED the repository checkpoint reported
success with a sha (on checkpoint failure the run is still `verified`
with a commit request and `last_good` is not updated); a run ending
`failed` has no commit request. -/
theorem C2_terminal_invariants (env : OrchEnv) (st₀ : Store)
    (hfresh : ∀ r ∈ st₀.runs, r.id ≠ env.run_id)
    (hcr : env.run_id ∉ st₀.run_commit_requests) :
    (run_status (run env st₀).1 env.run_id = some (strN "verified") →
      env.run_id ∈ (run env st₀).1.run_commit_requests ∧
      (∀ sha, env.checkpoint_result.success = true →
        env.checkpoint_result.commit_sha = some sha →
        (run env st₀).1.last_good = some sha)) ∧
    (run_status (run env st₀).1 env.run_id = some (strN "failed") →
      env.run_id ∉ (run env st₀).1.run_commit_requests) := by
  obtain ⟨hpr, hpcr, _, _, _⟩ := preExec_spec env st₀
  obtain ⟨her, hecr⟩ := execPhase_proj env (preExec env st₀).1
  have hruns1 : (execPhase env (preExec env st₀).1).1.runs
      = st₀.runs ++ [{ id := env.run_id, work_item_id := env.work_item_id
                     , status := strN "running", mood := env.mood }] :=
    her.trans hpr
  cases hsucc : (execPhase env (preExec env st₀).1).2 with
  | false =>
    rw [run_fail_branch env st₀ hsucc]
    have hu := update_run_runs_fresh (execPhase env (preExec env st₀).1).1
        env.run_id (strN "failed") (some (strN "SKEPTICAL")) st₀.runs _
        hruns1 hfresh rfl
    have hstat := run_status_fresh
        (add_run_note (update_run (execPhase env (preExec env st₀).1).1
           env.run_id (strN "failed") (some (strN "SKEPTICAL")))
           env.run_id (strN "note.status")
           (.statusB (strN "failed") (strN "SKEPTICAL") (strN "verify")))
        env.run_id st₀.runs _ hu hfresh rfl
    constructor
    · intro hv
      rw [hstat.1] at hv
      exact absurd (show (strN "failed" : PyStr) = strN "verified" from
        Option.some.inj hv) (by decide)
    · intro _
      show env.run_id ∉ (add_run_note (update_run (execPhase env
          (preExec env st₀).1).1 env.run_id (strN "failed")
          (some (strN "SKEPTICAL"))) env.run_id (strN "note.status")
          (.statusB (strN "failed") (strN "SKEPTICAL") (strN "verify"))).run_commit_requests
      have hchain : (add_run_note (update_run (execPhase env
          (preExec env st₀).1).1 env.run_id (strN "failed")
          (some (strN "SKEPTICAL"))) env.run_id (strN "note.status")
          (.statusB (strN "failed") (strN "SKEPTICAL") (strN "verify"))).run_commit_requests
          = st₀.run_commit_requests := hecr.trans hpcr
      rw [hchain]
      exact hcr
  | true =>
    rw [run_verify_branch env st₀ hsucc]
    have hu := update_run_runs_fresh (execPhase env (preExec env st₀).1).1
        env.run_id (strN "verifying") none st₀.runs _ hruns1 hfresh rfl
    have hSruns : (env.verifier_results.foldl
        (fun s r => add_run_verification s env.run_id r)
        (add_run_note (update_run (execPhase env (preExec env st₀).1).1
           env.run_id (strN "verifying") none)
           env.run_id (strN "note.status")
           (.statusB (strN "verifying") env.mood (strN "verify")))).runs
        = st₀.runs ++ [{ id := env.run_id, work_item_id := env.work_item_id
                       , status := strN "verifying"
                       , mood := (none : Option PyStr).getD env.mood }] := by
      rw [foldl_verif]
      exact hu
    have hScr : (env.verifier_results.foldl
        (fun s r => add_run_verification s env.run_id r)
        (add_run_note (update_run (execPhase env (preExec env st₀).1).1
           env.run_id (strN "verifying") none)
           env.run_id (strN "note.status")
           (.statusB (strN "verifying") env.mood (strN "verify")))).run_commit_requests
        = st₀.run_commit_requests := by
      rw [foldl_verif]
      exact hecr.trans hpcr
    have hruns2 := adjudicate_runs env (env.verifier_results.foldl
        (fun s r => add_run_verification s env.run_id r)
        (add_run_note (update_run (execPhase env (preExec env st₀).1).1
           env.run_id (strN "verifying") none)
           env.run_id (strN "note.status")
           (.statusB (strN "verifying") env.mood (strN "verify"))))
        (preExec env st₀).2
    have hu2 := update_run_runs_fresh (env.verifier_results.foldl
        (fun s r => add_run_verification s env.run_id r)
        (add_run_note (update_run (execPhase env (preExec env st₀).1).1
           env.run_id (strN "verifying") none)
           env.run_id (strN "note.status")
           (.statusB (strN "verifying") env.mood (strN "verify"))))
        env.run_id
        (if env.verifier_results.all (fun r => r.status = strN "pass")
         then strN "verified" else strN "failed")
        (some (strN "SKEPTICAL")) st₀.runs _ hSruns hfresh rfl
    have hstat := run_status_fresh
        (adjudicate env (env.verifier_results.foldl
          (fun s r => add_run_verification s env.run_id r)
          (add_run_note (update_run (execPhase env (preExec env st₀).1).1
             env.run_id (strN "verifying") none)
             env.run_id (strN "note.status")
             (.statusB (strN "verifying") env.mood (strN "verify"))))
          (preExec env st₀).2).1
        env.run_id st₀.runs _ (hruns2.trans hu2) hfresh rfl
    have hcrA := adjudicate_cr env (env.verifier_results.foldl
        (fun s r => add_run_verification s env.run_id r)
        (add_run_note (update_run (execPhase env (preExec env st₀).1).1
           env.run_id (strN "verifying") none)
           env.run_id (strN "note.status")
           (.statusB (strN "verifying") env.mood (strN "verify"))))
        (preExec env st₀).2
    cases hall : env.verifier_results.all (fun r => r.status = strN "pass") with
    | true =>
      constructor
      · intro _
        constructor
        · rw [hall] at hcrA
          rw [if_pos rfl] at hcrA
          show env.run_id ∈ (adjudicate env (env.verifier_results.foldl
              (fun s r => add_run_verification s env.run_id r)
              (add_run_note (update_run (execPhase env (preExec env st₀).1).1
                 env.run_id (strN "verifying") none)
                 env.run_id (strN "note.status")
                 (.statusB (strN "verifying") env.mood (strN "verify"))))
              (preExec env st₀).2).1.run_commit_requests
          rw [hcrA]
          exact List.mem_append_right _ (List.mem_singleton.mpr rfl)
        · intro sha hs hsha
          exact adjudicate_pass_lastgood env _ _ hall sha hs hsha
      · intro hf
        rw [hstat.1, hall] at hf
        exact absurd (show (strN "verified" : PyStr) = strN "failed" from
          Option.some.inj hf) (by decide)
    | false =>
      constructor
      · intro hv
        rw [hstat.1, hall] at hv
        exact absurd (show (strN "failed" : PyStr) = strN "verified" from
          Option.some.inj hv) (by decide)
      · intro _
        rw [hall] at hcrA
        rw [if_neg (show ¬(false = true) by decide)] at hcrA
        show env.run_id ∉ (adjudicate env (env.verifier_results.foldl
            (fun s r => add_run_verification s env.run_id r)
            (add_run_note (update_run (execPhase env (preExec env st₀).1).1
               env.run_id (strN "verifying") none)
               env.run_id (strN "note.status")
               (.statusB (strN "verifying") env.mood (strN "verify"))))
            (preExec env st₀).2).1.run_commit_requests
        rw [hcrA, hScr]
        exact hcr


/-- C2 counterexample to the original claim: with a failing repository
checkpoint the run still terminates `verified` and a commit request is
written, but no new commit sha exists and `last_good` keeps its old
value, so "last_good equals the newly created commit SHA" fails. -/
theorem C2_counterexample :
    run_status (run checkpointFailsEnv baseStore).1 1 = some (strN "verified") ∧
    (1 : Nat) ∈ (run checkpointFailsEnv baseStore).1.run_commit_requests ∧
    checkpointFailsEnv.checkpoint_result.success = false ∧
    checkpointFailsEnv.checkpoint_result.commit_sha = none ∧
    (run checkpointFailsEnv baseStore).1.last_good = some (strN "old") := by
  decide

/-- C2 witness: the amended invariants applied to the concrete
successful-checkpoint environment against the base store. -/
theorem C2_terminal_invariants_witness :
    (∀ r ∈ baseStore.runs, r.id ≠ checkpointOkEnv.run_id) ∧
    checkpointOkEnv.run_id ∉ baseStore.run_commit_requests ∧
    ((run_status (run checkpointOkEnv baseStore).1 checkpointOkEnv.run_id
        = some (strN "verified") →
      checkpointOkEnv.run_id
        ∈ (run checkpointOkEnv baseStore).1.run_commit_requests ∧
      (∀ sha, checkpointOkEnv.checkpoint_result.success = true →
        checkpointOkEnv.checkpoint_result.commit_sha = some sha →
        (run checkpointOkEnv baseStore).1.last_good = some sha)) ∧
    (run_status (run checkpointOkEnv baseStore).1 checkpointOkEnv.run_id
        = some (strN "failed") →
      checkpointOkEnv.run_id
        ∉ (run checkpointOkEnv baseStore).1.run_commit_requests)) :=
  ⟨by decide, by decide,
   C2_terminal_invariants checkpointOkEnv baseStore (by decide) (by decide)⟩

end Orchestrator
